import Mathlib

/-!
Shallow embedding of the xderived lazy derived-variable resolution engine.

The Python source embedded here consists of:
* xderived/core.py      — DerivedVariable, DerivedVariableRegistry
  (register/get_variable/_is_computable/list_all_computable/get_dependencies)
* xderived/accessor.py  — DerivedAccessor (_compute_derived_variable, get_status,
  get_dependencies with its hard-coded special case, clear_cache)
* xderived/utils.py     — the exception classes

Modelling conventions:
* an xarray DataArray is a Payload: an optional name, an attrs dictionary
  (association list with Python-dict update semantics) and an opaque data tag;
* a compute function returns a ComputeOut: a payload, a raised exception, or a
  value that is not a DataArray (the isinstance check of accessor.py line 89);
* the registry dictionary is a list of DerivedVariable values looked up by name;
* the dataset is a pair of association lists (data variables and coordinates);
  Python truthiness of a Dataset is the truthiness of its data variables;
* exceptions are the XErr inductive.  In the source a cyclic failure is a
  ComputationError whose message contains the sentinel substring
  "Circular dependency detected" and is re-raised verbatim by the dependency
  loop (accessor.py lines 51-54); here it is the distinct constructor XErr.cyclic,
  and the dependency loop dispatches on that constructor;
* the unbounded Python recursions are modelled with an explicit fuel parameter;
  every wrapper supplies fuel (registry length + 1), which the termination
  argument of the source (the resolving stack grows by one registered name per
  frame) shows is never exhausted.  Theorems about the fueled functions carry
  the corresponding freeNames bound as a hypothesis.
-/

namespace XDerived

/-- Association-list lookup with Python-dict semantics (first binding wins;
the lists built here are updated functionally so a key occurs at most once
unless stated otherwise). -/
def alistLookup {α : Type} (l : List (String × α)) (k : String) : Option α :=
  (l.find? (fun kv => kv.1 == k)).map (fun kv => kv.2)

/-- Overwrite every binding of a key in place, keeping positions (the update
half of Python dict assignment). -/
def mapReplace : List (String × String) → String → String → List (String × String)
  | [], _, _ => []
  | kv :: m, k, v => (if kv.1 == k then (k, v) else kv) :: mapReplace m k v

/-- Python dict assignment d[k] = v: overwrite in place if the key exists,
append otherwise. -/
def dictInsert (m : List (String × String)) (k : String) (v : String) :
    List (String × String) :=
  if (alistLookup m k).isSome then mapReplace m k v
  else m ++ [(k, v)]

/-- Python dict merge of two attribute maps as written in accessor.py line 96,
final_attrs = \x7b**derived_var_def.attrs, **computed_da.attrs\x7d: start from the
first map and apply every binding of the second as an update, so the second
map wins on key collisions. -/
def mergeAttrs (a b : List (String × String)) : List (String × String) :=
  b.foldl (fun m kv => dictInsert m kv.1 kv.2) a

/-- Model of an xarray.DataArray as moved through the engine: a declared name
(None or a string), an attrs map and an opaque data tag standing for the
array contents. -/
structure Payload where
  name : Option String
  attrs : List (String × String)
  data : Nat
deriving DecidableEq, Repr

/-- Outcome of calling a rule's compute function on a dependency pool:
it returns a DataArray, raises an exception, or returns a non-DataArray
value (accessor.py line 89 checks isinstance(computed_da, xr.DataArray)). -/
inductive ComputeOut where
  | val (p : Payload)
  | raiseExc
  | nonDataArray
deriving Inhabited

/-- Model of core.DerivedVariable restricted to the fields the embedded
operations read: name, ordered dependency list, compute function, description
and declared attrs.  (The hint fields of the source are only used by the
HTML repr, which is not embedded.) -/
structure DerivedVariable where
  name : String
  dependencies : List String
  func : List (String × Payload) → ComputeOut
  description : String
  attrs : List (String × String)

/-- The registry dictionary: core.DerivedVariableRegistry._registry, keyed by
name.  Modelled as the list of registered variables in insertion order. -/
def getVariable (reg : List DerivedVariable) (n : String) : Option DerivedVariable :=
  reg.find? (fun v => v.name == n)

/-- Names of all registered variables, in registration order
(the dict keys iterated by list_all_computable). -/
def registryNames (reg : List DerivedVariable) : List String :=
  reg.map (fun v => v.name)

/-- Model of the xarray.Dataset a DerivedAccessor is bound to: its data
variables and its coordinates, each an association list name to payload. -/
structure Ds where
  dataVars : List (String × Payload)
  coords : List (String × Payload)

/-- Lookup ds[n]: a data variable or a coordinate. -/
def Ds.lookupVar (ds : Ds) (n : String) : Option Payload :=
  match alistLookup ds.dataVars n with
  | some p => some p
  | none => alistLookup ds.coords n

/-- The membership test n in ds.variables or n in ds.coords used throughout
the source (in xarray, .variables already contains the coordinates). -/
def Ds.hasName (ds : Ds) (n : String) : Bool :=
  (ds.lookupVar n).isSome

/-- Python truthiness of an xarray.Dataset: bool(ds) goes through len(ds),
which is the number of data variables. -/
def Ds.truthy (ds : Ds) : Bool :=
  !ds.dataVars.isEmpty

/-- The exceptions of utils.py as raised by the accessor, in structured form.
missingFlat and missingCombined are the two message shapes of
MissingDependencyError (accessor.py lines 67-79); cyclic is the
ComputationError carrying "Circular dependency detected" and the resolving
stack; computeFail and nonDataArray are the two other ComputationError sites;
unknownVar is the AttributeError for an unregistered name; outOfFuel is the
artifact of the fuel embedding and is unreachable from the wrappers. -/
inductive XErr where
  | unknownVar (name : String)
  | missingFlat (name : String) (missing : List String)
  | missingCombined (name : String) (missingBase : List String)
      (unavailable : List (String × XErr))
  | cyclic (name : String) (path : List String)
  | computeFail (name : String)
  | nonDataArray (name : String)
  | outOfFuel

/-- The dependency loop of _compute_derived_variable re-raises exactly the
circular-dependency ComputationError (message test, accessor.py line 52). -/
def XErr.isCyclic : XErr → Bool
  | .cyclic _ _ => true
  | _ => false

/-- Fuel-exhaustion marker test (model artifact, propagated like an uncaught
exception; unreachable with the wrappers' fuel). -/
def XErr.isOutOfFuel : XErr → Bool
  | .outOfFuel => true
  | _ => false

/-- The per-accessor memoization cache self._cache. -/
abbrev Cache := List (String × Payload)

/-- Result triple of one _compute_derived_variable call: the payload or the
exception, the cache after the call (the source mutates self._cache in
place), and the trace of names whose compute function was invoked during the
call (instrumentation used to state the no-recomputation claims). -/
abbrev ResolveOut := Except XErr Payload × Cache × List String

/-- Outcome of the dependency-gathering loop (accessor.py lines 45-59):
either it aborted because a recursive call raised a circular-dependency
error (which is re-raised verbatim), or it finished with the gathered
dependency pool, the missing base names, the unavailable derived
dependencies with their inner errors, the cache and the compute trace. -/
inductive LoopOut where
  | aborted (e : XErr) (cache : Cache) (trace : List String)
  | finished (pool : List (String × Payload)) (missingBase : List String)
      (unavailable : List (String × XErr)) (cache : Cache) (trace : List String)

/-- Dependency loop of _compute_derived_variable, one frame level: for each
declared dependency take it from the dataset, else resolve it recursively
(re-raising circular errors, accumulating every other failure into the
unavailable list), else record it as a missing base name.  The resolver
argument is the recursive call at the child stack. -/
def depLoop (reg : List DerivedVariable) (ds : Ds)
    (resolver : Cache → String → ResolveOut) :
    List String → List (String × Payload) → List String →
    List (String × XErr) → Cache → List String → LoopOut
  | [], pool, mb, ud, cache, trace => LoopOut.finished pool mb ud cache trace
  | d :: rest, pool, mb, ud, cache, trace =>
    match ds.lookupVar d with
    | some p => depLoop reg ds resolver rest (pool ++ [(d, p)]) mb ud cache trace
    | none =>
      if (getVariable reg d).isSome then
        match resolver cache d with
        | (Except.ok p, c1, t1) =>
          depLoop reg ds resolver rest (pool ++ [(d, p)]) mb ud c1 (trace ++ t1)
        | (Except.error e, c1, t1) =>
          if e.isCyclic || e.isOutOfFuel then LoopOut.aborted e c1 (trace ++ t1)
          else depLoop reg ds resolver rest pool mb (ud ++ [(d, e)]) c1 (trace ++ t1)
      else
        depLoop reg ds resolver rest pool (mb ++ [d]) ud cache trace

/-- current_var_missing_base of accessor.py lines 63-66: the declared
dependencies that are neither in the dataset nor registered, recomputed by
the error path of the frame. -/
def missingBaseFilter (reg : List DerivedVariable) (ds : Ds)
    (vdef : DerivedVariable) : List String :=
  vdef.dependencies.filter (fun d => !ds.hasName d && !(getVariable reg d).isSome)

/-- Name forcing of accessor.py lines 98-99: set the payload name to the
resolved name if it is unset or different. -/
def renamePayload (name : String) (q1 : Payload) : Payload :=
  if q1.name = none ∨ q1.name ≠ some name then { q1 with name := some name } else q1

/-- Steps 7-10 of a frame applied to the dependency-loop outcome
(accessor.py lines 61-103): re-raise an aborted loop, raise the flat or the
combined MissingDependencyError when dependencies were unresolved, otherwise
invoke the compute function, check it returned a DataArray, merge attrs,
force the name, and cache the payload. -/
def afterLoop (reg : List DerivedVariable) (ds : Ds) (name : String)
    (vdef : DerivedVariable) : LoopOut → ResolveOut
  | LoopOut.aborted e c t => (Except.error e, c, t)
  | LoopOut.finished pool mb ud c t =>
    if mb.isEmpty && ud.isEmpty then
      match vdef.func pool with
      | ComputeOut.raiseExc => (Except.error (XErr.computeFail name), c, t ++ [name])
      | ComputeOut.nonDataArray =>
        (Except.error (XErr.nonDataArray name), c, t ++ [name])
      | ComputeOut.val q =>
        (Except.ok (renamePayload name { q with attrs := mergeAttrs vdef.attrs q.attrs }),
          (name, renamePayload name { q with attrs := mergeAttrs vdef.attrs q.attrs }) :: c,
          t ++ [name])
    else
      if !(missingBaseFilter reg ds vdef).isEmpty then
        (Except.error (XErr.missingFlat name (missingBaseFilter reg ds vdef)), c, t)
      else
        (Except.error (XErr.missingCombined name mb ud), c, t)

/-- One frame of _compute_derived_variable (accessor.py lines 28-103), given
the resolver for the recursive calls: cache hit, cycle detection against the
resolving stack, registry lookup, then the dependency loop followed by
afterLoop. -/
def resolveStep (reg : List DerivedVariable) (ds : Ds)
    (recur : List String → Cache → String → ResolveOut) :
    List String → Cache → String → ResolveOut := fun stack cache name =>
  match alistLookup cache name with
  | some p => (Except.ok p, cache, [])
  | none =>
    if stack.contains name then
      (Except.error (XErr.cyclic name stack), cache, [])
    else
      match getVariable reg name with
      | none => (Except.error (XErr.unknownVar name), cache, [])
      | some vdef =>
        afterLoop reg ds name vdef
          (depLoop reg ds (fun c d => recur (name :: stack) c d)
            vdef.dependencies [] [] [] cache [])

/-- Fueled _compute_derived_variable.  The Python recursion terminates
because the resolving stack gains one registered name per frame; the fuel
makes that termination explicit. -/
def resolveGo (reg : List DerivedVariable) (ds : Ds) :
    Nat → List String → Cache → String → ResolveOut
  | 0 => fun _ cache _ => (Except.error XErr.outOfFuel, cache, [])
  | fuel + 1 => resolveStep reg ds (resolveGo reg ds fuel)

/-- Top-level resolve(name): the accessor attribute access
ds.derived.name calls _compute_derived_variable(name, resolving_stack=set())
against the current cache.  Fuel registry length + 1 covers the deepest
possible chain. -/
def resolveTop (reg : List DerivedVariable) (ds : Ds) (cache : Cache)
    (name : String) : ResolveOut :=
  resolveGo reg ds (reg.length + 1) [] cache name

/-- DerivedAccessor.clear_cache: self._cache.clear(). -/
def clear_cache (_c : Cache) : Cache := []

/-- Dependency loop of core.DerivedVariableRegistry._is_computable
(core.py lines 94-104): a dependency present in the dataset is fine, a
registered one is checked recursively (the source copies the resolving
stack for the branch), anything else makes the rule non-computable; the
source breaks out of the loop at the first failure. -/
def compLoop (reg : List DerivedVariable) (ds : Ds)
    (recur : String → Bool) : List String → Bool
  | [] => true
  | d :: rest =>
    if ds.hasName d then compLoop reg ds recur rest
    else if (getVariable reg d).isSome then
      if recur d then compLoop reg ds recur rest else false
    else false

/-- One frame of _is_computable: a name already on the resolving stack or not
registered is not computable (note: the source never consults the dataset for
the name itself, only for dependencies), otherwise all dependencies are
checked with the name pushed onto the stack. -/
def compStep (reg : List DerivedVariable) (ds : Ds)
    (recur : String → List String → Bool) : String → List String → Bool :=
  fun varName stack =>
    if stack.contains varName then false
    else
      match getVariable reg varName with
      | none => false
      | some vdef => compLoop reg ds (fun d => recur d (varName :: stack)) vdef.dependencies

/-- Fueled _is_computable. -/
def isComputableGo (reg : List DerivedVariable) (ds : Ds) :
    Nat → String → List String → Bool
  | 0 => fun _ _ => false
  | fuel + 1 => compStep reg ds (isComputableGo reg ds fuel)

/-- Registry._is_computable(name, ds, resolving_stack=set()) as called by
check_availability and list_all_computable. -/
def isComputableTop (reg : List DerivedVariable) (ds : Ds) (n : String) : Bool :=
  isComputableGo reg ds (reg.length + 1) n []

/-- Code-point lexicographic comparison of character lists, the order Python
uses to compare strings. -/
def lexLe : List Char → List Char → Bool
  | [], _ => true
  | _ :: _, [] => false
  | a :: as, b :: bs =>
    if a.val < b.val then true else if b.val < a.val then false else lexLe as bs

/-- Python string comparison a <= b. -/
def strLe (a b : String) : Bool := lexLe a.data b.data

/-- Sorted insertion, building block of the sorted() model. -/
def insertName (a : String) : List String → List String
  | [] => [a]
  | b :: l => if strLe a b then a :: b :: l else b :: insertName a l

/-- Model of Python sorted() on a list of names: insertion sort by the
code-point lexicographic order. -/
def sortNames : List String → List String
  | [] => []
  | a :: l => insertName a (sortNames l)

/-- Registry.list_all_computable(ds): the registered names passing
_is_computable, returned sorted (core.py lines 164-169). -/
def list_all_computable (reg : List DerivedVariable) (ds : Ds) : List String :=
  sortNames ((registryNames reg).filter (fun n => isComputableTop reg ds n))

mutual

/-- Node classification of Registry.get_dependencies (core.py lines
124-140).  derivedRec holds the full nested result dict stored under the
"dependencies" key in recursive mode. -/
inductive DepInfo where
  | baseInDataset
  | missingBase
  | unknownOrMissingBase
  | derivedFlat
  | derivedRec (sub : DepResult)

/-- Result dict of Registry.get_dependencies: either the cycle marker
\x7b"status": "cycle_detected"\x7d or the node dict with keys "name",
"description" and "dependencies".  Each carries extraKeys, the extra dict
entries that DerivedAccessor.get_dependencies may graft on afterwards (its
special case writes a fourth key into a nested dict); the registry itself
always produces empty extraKeys. -/
inductive DepResult where
  | cycleDetected (extraKeys : List (String × DepInfo))
  | node (name : String) (description : String)
      (deps : List (String × DepInfo)) (extraKeys : List (String × DepInfo))

end

/-- Dependency loop of Registry.get_dependencies: classify each declared
dependency.  The is_in_ds test of the source is ds and (dep in ds.variables
or dep in ds.coords), so an all-coordinate dataset is falsy and the elif ds
branch distinguishes missing_base_variable from
unknown_or_missing_base_variable. -/
def depTreeLoop (reg : List DerivedVariable) (ds : Ds) (recFlag : Bool)
    (recur : String → Except String DepResult) :
    List String → List (String × DepInfo) → Except String (List (String × DepInfo))
  | [], acc => Except.ok acc
  | d :: rest, acc =>
    if ds.truthy && ds.hasName d then
      depTreeLoop reg ds recFlag recur rest (acc ++ [(d, DepInfo.baseInDataset)])
    else if (getVariable reg d).isSome then
      if recFlag then
        match recur d with
        | Except.error e => Except.error e
        | Except.ok sub =>
          depTreeLoop reg ds recFlag recur rest (acc ++ [(d, DepInfo.derivedRec sub)])
      else depTreeLoop reg ds recFlag recur rest (acc ++ [(d, DepInfo.derivedFlat)])
    else if ds.truthy then
      depTreeLoop reg ds recFlag recur rest (acc ++ [(d, DepInfo.missingBase)])
    else
      depTreeLoop reg ds recFlag recur rest (acc ++ [(d, DepInfo.unknownOrMissingBase)])

/-- One frame of Registry.get_dependencies (core.py lines 115-146): cycle
marker if the name is on the path, RegistrationError (the error string is
the name) if it is not registered, otherwise the node dict with the
classified dependencies; the recursion copies the path set per branch. -/
def depTreeStep (reg : List DerivedVariable) (ds : Ds) (recFlag : Bool)
    (recur : String → List String → Except String DepResult) :
    String → List String → Except String DepResult := fun variableName stack =>
  if stack.contains variableName then Except.ok (DepResult.cycleDetected [])
  else
    match getVariable reg variableName with
    | none => Except.error variableName
    | some vdef =>
      match depTreeLoop reg ds recFlag (fun d => recur d (variableName :: stack))
          vdef.dependencies [] with
      | Except.error e => Except.error e
      | Except.ok deps =>
        Except.ok (DepResult.node variableName vdef.description deps [])

/-- Fueled Registry.get_dependencies. -/
def registryGetDeps (reg : List DerivedVariable) (ds : Ds) (recFlag : Bool) :
    Nat → String → List String → Except String DepResult
  | 0 => fun _ _ => Except.error "out of fuel"
  | fuel + 1 => depTreeStep reg ds recFlag (registryGetDeps reg ds recFlag fuel)

/-- The literal variable name special-cased by
DerivedAccessor.get_dependencies (accessor.py line 300). -/
def rhName : String := "relative_humidity_from_mixing_ratios"

/-- The sibling dependency the special case reads. -/
def mrName : String := "mixing_ratio_from_specific_humidity"

/-- The sibling dependency the special case promotes. -/
def smrName : String := "saturation_mixing_ratio"

/-- The hand-patched mutation of DerivedAccessor.get_dependencies
(accessor.py lines 299-312): when the tree was requested for rhName and both
mrName and smrName appear among its direct dependencies, and the mrName entry
carries a "dependencies" dict, the smrName sibling entry is written into
that nested dict under the key smrName unless already present.  The nested
dict is the full recursive result (keys "name"/"description"/"dependencies"
or "status"), so the write lands in extraKeys of the model. -/
def promoteSpecial (deps : List (String × DepInfo)) : List (String × DepInfo) :=
  match alistLookup deps mrName, alistLookup deps smrName with
  | some (DepInfo.derivedRec sub), some smrEntry =>
    let sub1 : DepResult :=
      match sub with
      | DepResult.node n0 dsc l0 extra =>
        DepResult.node n0 dsc l0
          (if (alistLookup extra smrName).isSome then extra
           else extra ++ [(smrName, smrEntry)])
      | DepResult.cycleDetected extra =>
        DepResult.cycleDetected
          (if (alistLookup extra smrName).isSome then extra
           else extra ++ [(smrName, smrEntry)])
    deps.map (fun kv => if kv.1 == mrName then (kv.1, DepInfo.derivedRec sub1) else kv)
  | _, _ => deps

/-- DerivedAccessor.get_dependencies(variable_name, recursive=True)
(accessor.py lines 289-313): query the registry with a fresh path set, keep
only the "dependencies" map (deep-copied, hence pure here), and apply the
special-cased promotion for rhName. -/
def accessorGetDepsRec (reg : List DerivedVariable) (ds : Ds)
    (variableName : String) : Except String (List (String × DepInfo)) :=
  match registryGetDeps reg ds true (reg.length + 1) variableName [] with
  | Except.error e => Except.error e
  | Except.ok full =>
    let deps :=
      match full with
      | DepResult.node _ _ d _ => d
      | DepResult.cycleDetected _ => []
    if variableName == rhName then Except.ok (promoteSpecial deps)
    else Except.ok deps

/-- The "dependencies" map read off a registry tree result
(full_deps_info.get("dependencies") with the dict check, accessor.py
line 295). -/
def depsOfResult : DepResult → List (String × DepInfo)
  | DepResult.node _ _ d _ => d
  | DepResult.cycleDetected _ => []

/-- Keys of the top-level "dependencies" dict of a registry tree, used by
get_status's cycle test (membership test variable_name in tree dict). -/
def topDepsContain (reg : List DerivedVariable) (ds : Ds) (varName targetName : String) :
    Bool :=
  match registryGetDeps reg ds true (reg.length + 1) varName [] with
  | Except.ok (DepResult.node _ _ deps _) => (alistLookup deps targetName).isSome
  | _ => false

/-- Dependency loop of DerivedAccessor.get_status._can_compute_recursive
(accessor.py lines 240-245): dataset names are fine, registered names are
checked recursively with the state (missing accumulator, cycle flag)
threaded through, anything else is recorded missing; no early exit. -/
def canLoop (reg : List DerivedVariable) (ds : Ds)
    (recur : String → List String × Bool → Bool × (List String × Bool)) :
    List String → Bool → List String × Bool → Bool × (List String × Bool)
  | [], allMet, st => (allMet, st)
  | d :: rest, allMet, st =>
    if ds.hasName d then canLoop reg ds recur rest allMet st
    else if (getVariable reg d).isSome then
      match recur d st with
      | (b, st1) => canLoop reg ds recur rest (allMet && b) st1
    else canLoop reg ds recur rest false (st.1 ++ [d], st.2)

/-- One frame of _can_compute_recursive (accessor.py lines 224-247).  On a
revisited name the cycle flag is raised only when the revisited name is the
original variable or the original variable is a direct dependency of the
revisited name (membership in the top-level keys of its recursive
dependency tree); a non-registered name counts missing only when it is also
absent from the dataset (branch reachable only for the top-level name,
which get_status has already checked). -/
def canStep (reg : List DerivedVariable) (ds : Ds) (variableName : String)
    (recur : String → List String → List String × Bool → Bool × (List String × Bool)) :
    String → List String → List String × Bool → Bool × (List String × Bool) :=
  fun varName stack st =>
    if stack.contains varName then
      (false,
        (st.1,
          st.2 || (varName == variableName ||
            ((getVariable reg varName).isSome && topDepsContain reg ds varName variableName))))
    else
      match getVariable reg varName with
      | none =>
        if ds.hasName varName then (false, st) else (false, (st.1 ++ [varName], st.2))
      | some vdef =>
        canLoop reg ds (fun d st1 => recur d (varName :: stack) st1)
          vdef.dependencies true st

/-- Fueled _can_compute_recursive. -/
def canComputeRec (reg : List DerivedVariable) (ds : Ds) (variableName : String) :
    Nat → String → List String → List String × Bool → Bool × (List String × Bool)
  | 0 => fun _ _ st => (false, st)
  | fuel + 1 => canStep reg ds variableName (canComputeRec reg ds variableName fuel)

/-- The dict returned by DerivedAccessor.get_status (accessor.py lines
216-255): the computable flag, the sorted deduplicated missing list (empty
when computable) and the reason string. -/
structure StatusEntry where
  computable : Bool
  missing : List String
  reason : Option String
deriving DecidableEq, Repr

/-- sorted(list(set(missing_deps))) of accessor.py line 249. -/
def sortedUnique (l : List String) : List String :=
  sortNames l.eraseDups

/-- DerivedAccessor.get_status(variable_name). -/
def get_status (reg : List DerivedVariable) (ds : Ds) (variableName : String) :
    StatusEntry :=
  match getVariable reg variableName with
  | none => ⟨false, [], some "not_registered"⟩
  | some _ =>
    match canComputeRec reg ds variableName (reg.length + 1) variableName [] ([], false) with
    | (isComp, (missAcc, cyc)) =>
      let uniq := sortedUnique missAcc
      let reason : Option String :=
        if isComp then none
        else if cyc then some "cycle detected"
        else if !uniq.isEmpty then some "deps"
        else some "unknown"
      ⟨isComp, if isComp then [] else uniq, reason⟩

/-- Model of the Python argument values reaching DerivedVariable.__init__,
as far as its validation inspects them: a string, an int, a list, a callable
or None (core.py lines 26-31 test truthiness, isinstance str, isinstance
list with all-str elements, and callable). -/
inductive PyObj where
  | pstr (s : String)
  | pint (n : Int)
  | plist (l : List PyObj)
  | pfunc
  | pnone

/-- Python truthiness for the modelled values. -/
def PyObj.truthy : PyObj → Bool
  | .pstr s => !(s == "")
  | .pint n => !(n == 0)
  | .plist l => !l.isEmpty
  | .pfunc => true
  | .pnone => false

/-- isinstance(x, str). -/
def PyObj.isStr : PyObj → Bool
  | .pstr _ => true
  | _ => false

/-- callable(x): of the modelled values only a function object is. -/
def PyObj.isCallable : PyObj → Bool
  | .pfunc => true
  | _ => false

/-- The validation of DerivedVariable.__init__ (core.py lines 26-31):
construction succeeds iff no ValueError is raised, i.e. the name is a truthy
string, the dependencies are a list whose elements are all strings (their
emptiness is not inspected), and func is callable. -/
def dvInitOk (name deps func : PyObj) : Bool :=
  (name.truthy && name.isStr) &&
    (match deps with
     | PyObj.plist l => l.all (fun x => x.isStr)
     | _ => false) &&
    func.isCallable

/-- Specification-side computability predicate at bounded derivation height:
goodN (k+1) n holds iff n is registered and every dependency is either in
the dataset or good at height k.  This is the well-founded reading of
"registered rule all of whose dependencies are computable"; cycles never
become good at any height. -/
def goodStep (reg : List DerivedVariable) (ds : Ds) (g : String → Bool) :
    String → Bool := fun n =>
  match getVariable reg n with
  | none => false
  | some v => v.dependencies.all (fun d => ds.hasName d || g d)

/-- Bounded-height computability. -/
def goodN (reg : List DerivedVariable) (ds : Ds) : Nat → String → Bool
  | 0 => fun _ => false
  | k + 1 => goodStep reg ds (goodN reg ds k)

/-- A name is good when it is good at some height: its dependency graph is
satisfiable from the dataset through registered rules only. -/
def isGood (reg : List DerivedVariable) (ds : Ds) (n : String) : Prop :=
  ∃ k, goodN reg ds k n = true

/-- Acyclicity of the registered rule graph, expressed by a rank function
that strictly decreases along every edge to a registered dependency. -/
def AcyclicRules (reg : List DerivedVariable) : Prop :=
  ∃ rank : String → Nat,
    ∀ v ∈ reg, ∀ d ∈ v.dependencies, (getVariable reg d).isSome → rank d < rank v.name

/-- Every registered compute function returns a DataArray on every pool
(neither raises nor returns a foreign value). -/
def FuncsTotal (reg : List DerivedVariable) : Prop :=
  ∀ v ∈ reg, ∀ pool, ∃ p, v.func pool = ComputeOut.val p

/-- Fuel bookkeeping: the registered names not yet on the resolving stack.
Each recursive frame of the source pushes one registered name that was not
on the stack, so this quantity strictly decreases with depth. -/
def freeNames (reg : List DerivedVariable) (stack : List String) : Nat :=
  ((registryNames reg).filter (fun n => !stack.contains n)).length

/-- Cache component of a dependency-loop outcome. -/
def LoopOut.cacheOf : LoopOut → Cache
  | LoopOut.aborted _ c _ => c
  | LoopOut.finished _ _ _ c _ => c

/-- Graph-structure errors: the unknown-variable, missing-dependency and
cyclic-dependency kinds, as opposed to the failures of a compute function. -/
def XErr.isGraphErr : XErr → Bool
  | .unknownVar _ => true
  | .missingFlat _ _ => true
  | .missingCombined _ _ _ => true
  | .cyclic _ _ => true
  | _ => false

/-- The merged, renamed payload a successful frame produces and caches. -/
def finalPayload (name : String) (vdef : DerivedVariable) (q : Payload) : Payload :=
  ⟨some name, mergeAttrs vdef.attrs q.attrs, q.data⟩

/-- The dependency loop a frame for a rule runs, with the child resolver. -/
def frameLoop (reg : List DerivedVariable) (ds : Ds) (fuel : Nat)
    (stack : List String) (cache : Cache) (name : String)
    (vdef : DerivedVariable) : LoopOut :=
  depLoop reg ds (fun c d => resolveGo reg ds fuel (name :: stack) c d)
    vdef.dependencies [] [] [] cache []

/-- Stack invariant for the completeness lemmas: every name on the resolving
stack becomes good only strictly after the current name does.  It rules out
the current name sitting on its own path and is preserved when descending
into a dependency. -/
def StackOk (reg : List DerivedVariable) (ds : Ds) (stack : List String)
    (m : String) : Prop :=
  ∀ x ∈ stack, ∀ k, goodN reg ds k x = true → ∃ j < k, goodN reg ds j m = true


/-! Association-list lemmas -/

lemma alistLookup_cons {α : Type} (a : String × α) (l : List (String × α)) (k : String) :
    alistLookup (a :: l) k = if a.1 = k then some a.2 else alistLookup l k := by
  by_cases h : a.1 = k
  · have hb : (a.1 == k) = true := by simpa using h
    simp [alistLookup, List.find?, hb, h]
  · have hb : (a.1 == k) = false := by simpa using h
    simp [alistLookup, List.find?, hb, h]

lemma alistLookup_append {α : Type} (l1 l2 : List (String × α)) (k : String) :
    alistLookup (l1 ++ l2) k = (alistLookup l1 k).or (alistLookup l2 k) := by
  induction l1 with
  | nil => simp [alistLookup]
  | cons a l ih =>
    by_cases h : a.1 = k <;> simp [alistLookup_cons, h, ih]

lemma alistLookup_mapReplace_ne (m : List (String × String)) (k v k2 : String)
    (hne : k2 ≠ k) :
    alistLookup (mapReplace m k v) k2 = alistLookup m k2 := by
  induction m with
  | nil => rfl
  | cons a m ih =>
    by_cases h : a.1 = k
    · have hb : (a.1 == k) = true := by simpa using h
      rw [mapReplace, if_pos hb, alistLookup_cons, alistLookup_cons]
      rw [if_neg (fun hc => hne (Eq.symm hc)), if_neg (fun hc => hne (h ▸ Eq.symm hc))]
      exact ih
    · have hb : (a.1 == k) = false := by simpa using h
      rw [mapReplace, if_neg (by simp [hb]), alistLookup_cons, alistLookup_cons]
      rw [ih]

lemma alistLookup_mapReplace_eq (m : List (String × String)) (k v : String)
    (hp : (alistLookup m k).isSome = true) :
    alistLookup (mapReplace m k v) k = some v := by
  induction m with
  | nil => simp [alistLookup] at hp
  | cons a m ih =>
    by_cases h : a.1 = k
    · have hb : (a.1 == k) = true := by simpa using h
      rw [mapReplace, if_pos hb, alistLookup_cons, if_pos rfl]
    · have hb : (a.1 == k) = false := by simpa using h
      rw [alistLookup_cons, if_neg h] at hp
      rw [mapReplace, if_neg (by simp [hb]), alistLookup_cons, if_neg h]
      exact ih hp

lemma alistLookup_dictInsert (m : List (String × String)) (k v k2 : String) :
    alistLookup (dictInsert m k v) k2 =
      if k2 = k then some v else alistLookup m k2 := by
  unfold dictInsert
  by_cases hp : (alistLookup m k).isSome
  · rw [if_pos hp]
    by_cases he : k2 = k
    · subst he
      rw [alistLookup_mapReplace_eq m k2 v hp, if_pos rfl]
    · rw [alistLookup_mapReplace_ne m k v k2 he, if_neg he]
  · rw [if_neg hp, alistLookup_append]
    by_cases he : k2 = k
    · subst he
      have h0 : alistLookup m k2 = none := by
        cases hh : alistLookup m k2 with
        | none => rfl
        | some w => rw [hh] at hp; simp at hp
      rw [h0, alistLookup_cons, if_pos rfl, if_pos rfl]
      rfl
    · have h1 : alistLookup [(k, v)] k2 = (none : Option String) := by
        rw [alistLookup_cons, if_neg (fun hc => he (Eq.symm hc))]
        rfl
      rw [h1, if_neg he]
      cases alistLookup m k2 <;> rfl

lemma alistLookup_none_of_not_memKeys {α : Type} (m : List (String × α)) (k : String)
    (h : k ∉ m.map Prod.fst) : alistLookup m k = none := by
  induction m with
  | nil => rfl
  | cons a m ih =>
    simp only [List.map_cons, List.mem_cons] at h
    push_neg at h
    rw [alistLookup_cons, if_neg (fun hc => h.1 (Eq.symm hc))]
    exact ih h.2

/-- Per-key content of the attrs merge of accessor.py line 96: on a payload
attrs map without duplicate keys, the merged map reads the payload entry
first and falls back to the rule's declared entry. -/
lemma alistLookup_mergeAttrs (a b : List (String × String)) (k : String)
    (hb : (b.map Prod.fst).Nodup) :
    alistLookup (mergeAttrs a b) k = (alistLookup b k).or (alistLookup a k) := by
  induction b generalizing a with
  | nil =>
    rw [show mergeAttrs a [] = a from rfl]
    cases alistLookup a k <;> rfl
  | cons kv b ih =>
    have hb2 : (b.map Prod.fst).Nodup := by
      simp only [List.map_cons, List.nodup_cons] at hb
      exact hb.2
    have hknotin : kv.1 ∉ b.map Prod.fst := by
      simp only [List.map_cons, List.nodup_cons] at hb
      exact hb.1
    have hstep : mergeAttrs a (kv :: b) = mergeAttrs (dictInsert a kv.1 kv.2) b := rfl
    rw [hstep, ih _ hb2]
    by_cases he : k = kv.1
    · have hb0 : alistLookup b k = none := by
        rw [he]
        exact alistLookup_none_of_not_memKeys b kv.1 hknotin
      rw [hb0, alistLookup_cons, if_pos he.symm, alistLookup_dictInsert, if_pos he]
      rfl
    · rw [alistLookup_cons, if_neg (fun hc => he (Eq.symm hc)),
        alistLookup_dictInsert, if_neg he]

/-! Filter-length lemmas for the fuel bookkeeping -/

lemma length_filter_le_of_imp {α : Type} (l : List α) (p q : α → Bool)
    (h : ∀ x, q x = true → p x = true) :
    (l.filter q).length ≤ (l.filter p).length := by
  induction l with
  | nil => simp
  | cons a l ih =>
    by_cases hq : q a = true
    · have hp := h a hq
      simp only [List.filter_cons, if_pos hq, if_pos hp, List.length_cons]
      omega
    · by_cases hp : p a = true
      · simp only [List.filter_cons, if_neg hq, if_pos hp, List.length_cons]
        omega
      · simp only [List.filter_cons, if_neg hq, if_neg hp]
        exact ih

lemma length_filter_lt_of_witness {α : Type} (l : List α) (p q : α → Bool) (n : α)
    (h : ∀ x, q x = true → p x = true) (hn : n ∈ l) (hpn : p n = true)
    (hqn : q n = false) :
    (l.filter q).length < (l.filter p).length := by
  induction l with
  | nil => cases hn
  | cons a l ih =>
    rcases List.mem_cons.mp hn with ha | ha
    · subst ha
      have h1 := length_filter_le_of_imp l p q h
      have hqn2 : ¬ (q n = true) := by simp [hqn]
      simp only [List.filter_cons, if_pos hpn, if_neg hqn2, List.length_cons]
      omega
    · by_cases hq : q a = true
      · have hp := h a hq
        have h2 := ih ha
        simp only [List.filter_cons, if_pos hq, if_pos hp, List.length_cons]
        omega
      · by_cases hp : p a = true
        · have h2 := ih ha
          simp only [List.filter_cons, if_neg hq, if_pos hp, List.length_cons]
          omega
        · simp only [List.filter_cons, if_neg hq, if_neg hp]
          exact ih ha

lemma getVariable_mem_names (reg : List DerivedVariable) (n : String)
    (h : (getVariable reg n).isSome = true) : n ∈ registryNames reg := by
  unfold getVariable at h
  cases hf : reg.find? (fun v => v.name == n) with
  | none => rw [hf] at h; simp at h
  | some v =>
    have hmem := List.mem_of_find?_eq_some hf
    have hname : (v.name == n) = true := (List.find?_eq_some.mp hf).1
    have hvn : v.name = n := by simpa using hname
    subst hvn
    exact List.mem_map.mpr ⟨v, hmem, rfl⟩

/-- Pushing a registered, not-yet-visited name onto the resolving stack
strictly shrinks the registered names remaining off the stack. -/
lemma freeNames_cons_lt (reg : List DerivedVariable) (stack : List String) (n : String)
    (hreg : (getVariable reg n).isSome = true) (hstk : stack.contains n = false) :
    freeNames reg (n :: stack) < freeNames reg stack := by
  apply length_filter_lt_of_witness (registryNames reg)
    (fun x => !stack.contains x) (fun x => !(n :: stack).contains x) n
  · intro x hx
    simp only [List.contains_cons, Bool.not_eq_true', Bool.or_eq_false_iff] at hx ⊢
    exact hx.2
  · exact getVariable_mem_names reg n hreg
  · simp only [hstk, Bool.not_false]
  · simp

lemma freeNames_nil (reg : List DerivedVariable) :
    freeNames reg [] = reg.length := by
  unfold freeNames
  have h0 : ∀ n : String, (!([] : List String).contains n) = true := by
    intro n
    simp
  rw [List.filter_eq_self.mpr fun a _ => h0 a]
  simp [registryNames]

/-! Height-indexed computability lemmas -/

lemma goodN_succ_iff (reg : List DerivedVariable) (ds : Ds) (k : Nat) (n : String) :
    goodN reg ds (k + 1) n = true ↔
      ∃ v, getVariable reg n = some v ∧
        ∀ d ∈ v.dependencies, ds.hasName d = true ∨ goodN reg ds k d = true := by
  show goodStep reg ds (goodN reg ds k) n = true ↔ _
  unfold goodStep
  cases hv : getVariable reg n with
  | none => simp
  | some v =>
    simp only [List.all_eq_true, Bool.or_eq_true]
    constructor
    · intro h
      exact ⟨v, rfl, h⟩
    · rintro ⟨w, hw, h⟩
      cases hw
      exact h

lemma goodN_mono_succ (reg : List DerivedVariable) (ds : Ds) (k : Nat) (n : String)
    (h : goodN reg ds k n = true) : goodN reg ds (k + 1) n = true := by
  induction k generalizing n with
  | zero => simp [goodN] at h
  | succ k ih =>
    rcases (goodN_succ_iff reg ds k n).mp h with ⟨v, hv, hdeps⟩
    refine (goodN_succ_iff reg ds (k + 1) n).mpr ⟨v, hv, ?_⟩
    intro d hd
    rcases hdeps d hd with hds | hg
    · exact Or.inl hds
    · exact Or.inr (ih d hg)

lemma goodN_mono (reg : List DerivedVariable) (ds : Ds) (k j : Nat) (n : String)
    (hkj : k ≤ j) (h : goodN reg ds k n = true) : goodN reg ds j n = true := by
  induction j with
  | zero =>
    have hk0 : k = 0 := Nat.le_zero.mp hkj
    subst hk0
    exact h
  | succ j ih =>
    rcases Nat.lt_or_ge k (j + 1) with hlt | hge
    · exact goodN_mono_succ reg ds j n (ih (Nat.lt_succ_iff.mp hlt))
    · have hk1 : k = j + 1 := Nat.le_antisymm hkj hge
      subst hk1
      exact h

lemma goodN_registered (reg : List DerivedVariable) (ds : Ds) (k : Nat) (n : String)
    (h : goodN reg ds k n = true) : (getVariable reg n).isSome = true := by
  cases k with
  | zero => simp [goodN] at h
  | succ k =>
    rcases (goodN_succ_iff reg ds k n).mp h with ⟨v, hv, _⟩
    rw [hv]
    rfl

/-- No name can require itself to be good strictly earlier at every height:
the self-descent condition forces the name to be good at no height. -/
lemma no_self_descent (reg : List DerivedVariable) (ds : Ds) (m : String)
    (h : ∀ k, goodN reg ds k m = true → ∃ j < k, goodN reg ds j m = true) :
    ∀ k, goodN reg ds k m = false := by
  intro k
  induction k using Nat.strong_induction_on with
  | _ k ih =>
    cases hk : goodN reg ds k m with
    | false => rfl
    | true =>
      rcases h k hk with ⟨j, hj, hgj⟩
      have hf := ih j hj
      rw [hf] at hgj
      cases hgj

/-- The current name is never on a StackOk stack while it is good. -/
lemma StackOk_not_mem (reg : List DerivedVariable) (ds : Ds) (stack : List String)
    (m : String) (hs : StackOk reg ds stack m) (hg : isGood reg ds m) :
    stack.contains m = false := by
  cases hc : stack.contains m with
  | false => rfl
  | true =>
    exfalso
    rcases hg with ⟨k, hk⟩
    have hmem : m ∈ stack := by
      rw [List.contains_eq_any_beq] at hc
      rw [List.any_eq_true] at hc
      rcases hc with ⟨x, hx, hbx⟩
      have hmx : m = x := by simpa using hbx
      subst hmx
      exact hx
    have hdesc := hs m hmem
    have hz := no_self_descent reg ds m (fun k2 hk2 => hdesc k2 hk2) k
    rw [hz] at hk
    cases hk

/-- Descending from a good name into one of its non-dataset dependencies
preserves the stack invariant for the pushed stack. -/
lemma StackOk_push (reg : List DerivedVariable) (ds : Ds) (stack : List String)
    (m d : String) (hs : StackOk reg ds stack m)
    (hdep : ∀ k, goodN reg ds k m = true → ∃ j < k, goodN reg ds j d = true) :
    StackOk reg ds (m :: stack) d := by
  intro x hx k hk
  rcases List.mem_cons.mp hx with hxm | hxs
  · subst hxm
    exact hdep k hk
  · rcases hs x hxs k hk with ⟨j, hj, hgj⟩
    rcases hdep j hgj with ⟨j2, hj2, hgj2⟩
    exact ⟨j2, Nat.lt_trans hj2 hj, hgj2⟩

/-- A good name descends into each registered non-dataset dependency at a
strictly smaller height. -/
lemma good_dep_descent (reg : List DerivedVariable) (ds : Ds) (m d : String)
    (v : DerivedVariable) (hv : getVariable reg m = some v)
    (hd : d ∈ v.dependencies) (hds : ds.hasName d = false) :
    ∀ k, goodN reg ds k m = true → ∃ j < k, goodN reg ds j d = true := by
  intro k hk
  cases k with
  | zero => simp [goodN] at hk
  | succ k =>
    rcases (goodN_succ_iff reg ds k m).mp hk with ⟨w, hw, hdeps⟩
    rw [hv] at hw
    cases hw
    rcases hdeps d hd with hds2 | hg
    · rw [hds] at hds2
      cases hds2
    · exact ⟨k, Nat.lt_succ_self k, hg⟩

/-- A good name has good registered dependencies wherever the dataset does
not supply them, all at one common height. -/
lemma good_deps_bound (reg : List DerivedVariable) (ds : Ds) (deps : List String)
    (h : ∀ d ∈ deps, ds.hasName d = true ∨ isGood reg ds d) :
    ∃ K, ∀ d ∈ deps, ds.hasName d = true ∨ goodN reg ds K d = true := by
  induction deps with
  | nil => exact ⟨0, by simp⟩
  | cons a l ih =>
    rcases ih (fun d hd => h d (List.mem_cons_of_mem a hd)) with ⟨K, hK⟩
    rcases h a (List.mem_cons_self a l) with hds | ⟨ka, hka⟩
    · refine ⟨K, ?_⟩
      intro d hd
      rcases List.mem_cons.mp hd with rfl | hdl
      · exact Or.inl hds
      · exact hK d hdl
    · refine ⟨K + ka, ?_⟩
      intro d hd
      rcases List.mem_cons.mp hd with rfl | hdl
      · exact Or.inr (goodN_mono reg ds ka (K + ka) d (Nat.le_add_left ka K) hka)
      · rcases hK d hdl with hds | hg
        · exact Or.inl hds
        · exact Or.inr (goodN_mono reg ds K (K + ka) d (Nat.le_add_right K ka) hg)
/-! Branch equations for the dependency loop and the resolve frame -/

lemma depLoop_nil (reg : List DerivedVariable) (ds : Ds)
    (resolver : Cache → String → ResolveOut) (pool : List (String × Payload))
    (mb : List String) (ud : List (String × XErr)) (cache : Cache) (trace : List String) :
    depLoop reg ds resolver [] pool mb ud cache trace =
      LoopOut.finished pool mb ud cache trace := rfl

lemma depLoop_cons_inDs (reg : List DerivedVariable) (ds : Ds)
    (resolver : Cache → String → ResolveOut) (d : String) (rest : List String)
    (pool : List (String × Payload)) (mb : List String) (ud : List (String × XErr))
    (cache : Cache) (trace : List String) (p : Payload)
    (h : ds.lookupVar d = some p) :
    depLoop reg ds resolver (d :: rest) pool mb ud cache trace =
      depLoop reg ds resolver rest (pool ++ [(d, p)]) mb ud cache trace := by
  simp only [depLoop]
  rw [h]

lemma depLoop_cons_missing (reg : List DerivedVariable) (ds : Ds)
    (resolver : Cache → String → ResolveOut) (d : String) (rest : List String)
    (pool : List (String × Payload)) (mb : List String) (ud : List (String × XErr))
    (cache : Cache) (trace : List String)
    (h1 : ds.lookupVar d = none) (h2 : getVariable reg d = none) :
    depLoop reg ds resolver (d :: rest) pool mb ud cache trace =
      depLoop reg ds resolver rest pool (mb ++ [d]) ud cache trace := by
  simp only [depLoop]
  rw [h1, h2]
  rfl

lemma depLoop_cons_recOk (reg : List DerivedVariable) (ds : Ds)
    (resolver : Cache → String → ResolveOut) (d : String) (rest : List String)
    (pool : List (String × Payload)) (mb : List String) (ud : List (String × XErr))
    (cache : Cache) (trace : List String) (p : Payload) (c1 : Cache) (t1 : List String)
    (h1 : ds.lookupVar d = none) (h2 : (getVariable reg d).isSome = true)
    (h3 : resolver cache d = (Except.ok p, c1, t1)) :
    depLoop reg ds resolver (d :: rest) pool mb ud cache trace =
      depLoop reg ds resolver rest (pool ++ [(d, p)]) mb ud c1 (trace ++ t1) := by
  simp only [depLoop]
  rw [h1, h2, h3]
  rfl

lemma depLoop_cons_recAbort (reg : List DerivedVariable) (ds : Ds)
    (resolver : Cache → String → ResolveOut) (d : String) (rest : List String)
    (pool : List (String × Payload)) (mb : List String) (ud : List (String × XErr))
    (cache : Cache) (trace : List String) (e : XErr) (c1 : Cache) (t1 : List String)
    (h1 : ds.lookupVar d = none) (h2 : (getVariable reg d).isSome = true)
    (h3 : resolver cache d = (Except.error e, c1, t1))
    (h4 : (e.isCyclic || e.isOutOfFuel) = true) :
    depLoop reg ds resolver (d :: rest) pool mb ud cache trace =
      LoopOut.aborted e c1 (trace ++ t1) := by
  simp only [depLoop]
  rw [h1, h2, h3]
  show (if (e.isCyclic || e.isOutOfFuel) = true then LoopOut.aborted e c1 (trace ++ t1)
    else depLoop reg ds resolver rest pool mb (ud ++ [(d, e)]) c1 (trace ++ t1)) =
      LoopOut.aborted e c1 (trace ++ t1)
  rw [h4]
  rfl

lemma depLoop_cons_recErr (reg : List DerivedVariable) (ds : Ds)
    (resolver : Cache → String → ResolveOut) (d : String) (rest : List String)
    (pool : List (String × Payload)) (mb : List String) (ud : List (String × XErr))
    (cache : Cache) (trace : List String) (e : XErr) (c1 : Cache) (t1 : List String)
    (h1 : ds.lookupVar d = none) (h2 : (getVariable reg d).isSome = true)
    (h3 : resolver cache d = (Except.error e, c1, t1))
    (h4 : (e.isCyclic || e.isOutOfFuel) = false) :
    depLoop reg ds resolver (d :: rest) pool mb ud cache trace =
      depLoop reg ds resolver rest pool mb (ud ++ [(d, e)]) c1 (trace ++ t1) := by
  simp only [depLoop]
  rw [h1, h2, h3]
  show (if (e.isCyclic || e.isOutOfFuel) = true then LoopOut.aborted e c1 (trace ++ t1)
    else depLoop reg ds resolver rest pool mb (ud ++ [(d, e)]) c1 (trace ++ t1)) =
      depLoop reg ds resolver rest pool mb (ud ++ [(d, e)]) c1 (trace ++ t1)
  rw [h4]
  rfl

lemma renamePayload_merge (name : String) (vdef : DerivedVariable) (q : Payload) :
    renamePayload name { q with attrs := mergeAttrs vdef.attrs q.attrs } =
      finalPayload name vdef q := by
  unfold renamePayload finalPayload
  by_cases h : ({ q with attrs := mergeAttrs vdef.attrs q.attrs } : Payload).name = none ∨
      ({ q with attrs := mergeAttrs vdef.attrs q.attrs } : Payload).name ≠ some name
  · rw [if_pos h]
  · rw [if_neg h]
    push_neg at h
    have hq : q.name = some name := h.2
    show ({ q with attrs := mergeAttrs vdef.attrs q.attrs } : Payload) = _
    rw [show ({ q with attrs := mergeAttrs vdef.attrs q.attrs } : Payload) =
      ⟨q.name, mergeAttrs vdef.attrs q.attrs, q.data⟩ from rfl, hq]

lemma resolveGo_succ_eq (reg : List DerivedVariable) (ds : Ds) (fuel : Nat)
    (stack : List String) (cache : Cache) (name : String) :
    resolveGo reg ds (fuel + 1) stack cache name =
      resolveStep reg ds (resolveGo reg ds fuel) stack cache name := rfl

lemma resolveGo_hit (reg : List DerivedVariable) (ds : Ds) (fuel : Nat)
    (stack : List String) (cache : Cache) (name : String) (p : Payload)
    (h : alistLookup cache name = some p) :
    resolveGo reg ds (fuel + 1) stack cache name = (Except.ok p, cache, []) := by
  rw [resolveGo_succ_eq]
  unfold resolveStep
  rw [h]

lemma resolveGo_cyclic_eq (reg : List DerivedVariable) (ds : Ds) (fuel : Nat)
    (stack : List String) (cache : Cache) (name : String)
    (h1 : alistLookup cache name = none) (h2 : stack.contains name = true) :
    resolveGo reg ds (fuel + 1) stack cache name =
      (Except.error (XErr.cyclic name stack), cache, []) := by
  rw [resolveGo_succ_eq]
  unfold resolveStep
  rw [h1, h2]
  rfl

lemma resolveGo_unknown_eq (reg : List DerivedVariable) (ds : Ds) (fuel : Nat)
    (stack : List String) (cache : Cache) (name : String)
    (h1 : alistLookup cache name = none) (h2 : stack.contains name = false)
    (h3 : getVariable reg name = none) :
    resolveGo reg ds (fuel + 1) stack cache name =
      (Except.error (XErr.unknownVar name), cache, []) := by
  rw [resolveGo_succ_eq]
  unfold resolveStep
  rw [h1, h2, h3]
  rfl

lemma resolveGo_frame_eq (reg : List DerivedVariable) (ds : Ds) (fuel : Nat)
    (stack : List String) (cache : Cache) (name : String) (vdef : DerivedVariable)
    (h1 : alistLookup cache name = none) (h2 : stack.contains name = false)
    (h3 : getVariable reg name = some vdef) :
    resolveGo reg ds (fuel + 1) stack cache name =
      afterLoop reg ds name vdef (frameLoop reg ds fuel stack cache name vdef) := by
  rw [resolveGo_succ_eq]
  unfold resolveStep
  rw [h1, h2, h3]
  rfl

lemma resolveGo_aborted_eq (reg : List DerivedVariable) (ds : Ds) (fuel : Nat)
    (stack : List String) (cache : Cache) (name : String) (vdef : DerivedVariable)
    (e : XErr) (c : Cache) (t : List String)
    (h1 : alistLookup cache name = none) (h2 : stack.contains name = false)
    (h3 : getVariable reg name = some vdef)
    (h4 : frameLoop reg ds fuel stack cache name vdef = LoopOut.aborted e c t) :
    resolveGo reg ds (fuel + 1) stack cache name = (Except.error e, c, t) := by
  rw [resolveGo_frame_eq reg ds fuel stack cache name vdef h1 h2 h3, h4]
  rfl

lemma afterLoop_raise_eq (reg : List DerivedVariable) (ds : Ds) (name : String)
    (vdef : DerivedVariable) (pool : List (String × Payload)) (mb : List String)
    (ud : List (String × XErr)) (c : Cache) (t : List String)
    (h5 : (mb.isEmpty && ud.isEmpty) = true)
    (h6 : vdef.func pool = ComputeOut.raiseExc) :
    afterLoop reg ds name vdef (LoopOut.finished pool mb ud c t) =
      (Except.error (XErr.computeFail name), c, t ++ [name]) := by
  simp only [afterLoop]
  rw [h5, h6]
  rfl

lemma afterLoop_nonDA_eq (reg : List DerivedVariable) (ds : Ds) (name : String)
    (vdef : DerivedVariable) (pool : List (String × Payload)) (mb : List String)
    (ud : List (String × XErr)) (c : Cache) (t : List String)
    (h5 : (mb.isEmpty && ud.isEmpty) = true)
    (h6 : vdef.func pool = ComputeOut.nonDataArray) :
    afterLoop reg ds name vdef (LoopOut.finished pool mb ud c t) =
      (Except.error (XErr.nonDataArray name), c, t ++ [name]) := by
  simp only [afterLoop]
  rw [h5, h6]
  rfl

lemma afterLoop_val_eq (reg : List DerivedVariable) (ds : Ds) (name : String)
    (vdef : DerivedVariable) (pool : List (String × Payload)) (mb : List String)
    (ud : List (String × XErr)) (c : Cache) (t : List String) (q : Payload)
    (h5 : (mb.isEmpty && ud.isEmpty) = true)
    (h6 : vdef.func pool = ComputeOut.val q) :
    afterLoop reg ds name vdef (LoopOut.finished pool mb ud c t) =
      (Except.ok (finalPayload name vdef q),
        (name, finalPayload name vdef q) :: c, t ++ [name]) := by
  simp only [afterLoop]
  rw [h5, h6]
  show (Except.ok (renamePayload name { q with attrs := mergeAttrs vdef.attrs q.attrs }),
      (name, renamePayload name { q with attrs := mergeAttrs vdef.attrs q.attrs }) :: c,
      t ++ [name]) = _
  rw [renamePayload_merge]

lemma afterLoop_flat_eq (reg : List DerivedVariable) (ds : Ds) (name : String)
    (vdef : DerivedVariable) (pool : List (String × Payload)) (mb : List String)
    (ud : List (String × XErr)) (c : Cache) (t : List String)
    (h5 : (mb.isEmpty && ud.isEmpty) = false)
    (h6 : (missingBaseFilter reg ds vdef).isEmpty = false) :
    afterLoop reg ds name vdef (LoopOut.finished pool mb ud c t) =
      (Except.error (XErr.missingFlat name (missingBaseFilter reg ds vdef)), c, t) := by
  simp only [afterLoop]
  rw [h5, h6]
  rfl

lemma afterLoop_combined_eq (reg : List DerivedVariable) (ds : Ds) (name : String)
    (vdef : DerivedVariable) (pool : List (String × Payload)) (mb : List String)
    (ud : List (String × XErr)) (c : Cache) (t : List String)
    (h5 : (mb.isEmpty && ud.isEmpty) = false)
    (h6 : (missingBaseFilter reg ds vdef).isEmpty = true) :
    afterLoop reg ds name vdef (LoopOut.finished pool mb ud c t) =
      (Except.error (XErr.missingCombined name mb ud), c, t) := by
  simp only [afterLoop]
  rw [h5, h6]
  rfl

lemma resolveGo_computeFail_eq (reg : List DerivedVariable) (ds : Ds) (fuel : Nat)
    (stack : List String) (cache : Cache) (name : String) (vdef : DerivedVariable)
    (pool : List (String × Payload)) (mb : List String) (ud : List (String × XErr))
    (c : Cache) (t : List String)
    (h1 : alistLookup cache name = none) (h2 : stack.contains name = false)
    (h3 : getVariable reg name = some vdef)
    (h4 : frameLoop reg ds fuel stack cache name vdef = LoopOut.finished pool mb ud c t)
    (h5 : (mb.isEmpty && ud.isEmpty) = true)
    (h6 : vdef.func pool = ComputeOut.raiseExc) :
    resolveGo reg ds (fuel + 1) stack cache name =
      (Except.error (XErr.computeFail name), c, t ++ [name]) := by
  rw [resolveGo_frame_eq reg ds fuel stack cache name vdef h1 h2 h3, h4,
    afterLoop_raise_eq reg ds name vdef pool mb ud c t h5 h6]

lemma resolveGo_nonDataArray_eq (reg : List DerivedVariable) (ds : Ds) (fuel : Nat)
    (stack : List String) (cache : Cache) (name : String) (vdef : DerivedVariable)
    (pool : List (String × Payload)) (mb : List String) (ud : List (String × XErr))
    (c : Cache) (t : List String)
    (h1 : alistLookup cache name = none) (h2 : stack.contains name = false)
    (h3 : getVariable reg name = some vdef)
    (h4 : frameLoop reg ds fuel stack cache name vdef = LoopOut.finished pool mb ud c t)
    (h5 : (mb.isEmpty && ud.isEmpty) = true)
    (h6 : vdef.func pool = ComputeOut.nonDataArray) :
    resolveGo reg ds (fuel + 1) stack cache name =
      (Except.error (XErr.nonDataArray name), c, t ++ [name]) := by
  rw [resolveGo_frame_eq reg ds fuel stack cache name vdef h1 h2 h3, h4,
    afterLoop_nonDA_eq reg ds name vdef pool mb ud c t h5 h6]

lemma resolveGo_val_eq (reg : List DerivedVariable) (ds : Ds) (fuel : Nat)
    (stack : List String) (cache : Cache) (name : String) (vdef : DerivedVariable)
    (pool : List (String × Payload)) (mb : List String) (ud : List (String × XErr))
    (c : Cache) (t : List String) (q : Payload)
    (h1 : alistLookup cache name = none) (h2 : stack.contains name = false)
    (h3 : getVariable reg name = some vdef)
    (h4 : frameLoop reg ds fuel stack cache name vdef = LoopOut.finished pool mb ud c t)
    (h5 : (mb.isEmpty && ud.isEmpty) = true)
    (h6 : vdef.func pool = ComputeOut.val q) :
    resolveGo reg ds (fuel + 1) stack cache name =
      (Except.ok (finalPayload name vdef q),
        (name, finalPayload name vdef q) :: c, t ++ [name]) := by
  rw [resolveGo_frame_eq reg ds fuel stack cache name vdef h1 h2 h3, h4,
    afterLoop_val_eq reg ds name vdef pool mb ud c t q h5 h6]

lemma resolveGo_missing_flat_eq (reg : List DerivedVariable) (ds : Ds) (fuel : Nat)
    (stack : List String) (cache : Cache) (name : String) (vdef : DerivedVariable)
    (pool : List (String × Payload)) (mb : List String) (ud : List (String × XErr))
    (c : Cache) (t : List String)
    (h1 : alistLookup cache name = none) (h2 : stack.contains name = false)
    (h3 : getVariable reg name = some vdef)
    (h4 : frameLoop reg ds fuel stack cache name vdef = LoopOut.finished pool mb ud c t)
    (h5 : (mb.isEmpty && ud.isEmpty) = false)
    (h6 : (missingBaseFilter reg ds vdef).isEmpty = false) :
    resolveGo reg ds (fuel + 1) stack cache name =
      (Except.error (XErr.missingFlat name (missingBaseFilter reg ds vdef)), c, t) := by
  rw [resolveGo_frame_eq reg ds fuel stack cache name vdef h1 h2 h3, h4,
    afterLoop_flat_eq reg ds name vdef pool mb ud c t h5 h6]

lemma resolveGo_missing_combined_eq (reg : List DerivedVariable) (ds : Ds) (fuel : Nat)
    (stack : List String) (cache : Cache) (name : String) (vdef : DerivedVariable)
    (pool : List (String × Payload)) (mb : List String) (ud : List (String × XErr))
    (c : Cache) (t : List String)
    (h1 : alistLookup cache name = none) (h2 : stack.contains name = false)
    (h3 : getVariable reg name = some vdef)
    (h4 : frameLoop reg ds fuel stack cache name vdef = LoopOut.finished pool mb ud c t)
    (h5 : (mb.isEmpty && ud.isEmpty) = false)
    (h6 : (missingBaseFilter reg ds vdef).isEmpty = true) :
    resolveGo reg ds (fuel + 1) stack cache name =
      (Except.error (XErr.missingCombined name mb ud), c, t) := by
  rw [resolveGo_frame_eq reg ds fuel stack cache name vdef h1 h2 h3, h4,
    afterLoop_combined_eq reg ds name vdef pool mb ud c t h5 h6]
/-! Resolver cache lemmas -/

/-- If every recursive call leaves the cache entry of n unchanged, so does
the whole dependency loop. -/
lemma depLoop_lookup_stable (reg : List DerivedVariable) (ds : Ds)
    (resolver : Cache → String → ResolveOut) (n : String)
    (hres : ∀ c d, alistLookup ((resolver c d).2.1) n = alistLookup c n) :
    ∀ (deps : List String) (pool : List (String × Payload)) (mb : List String)
      (ud : List (String × XErr)) (cache : Cache) (trace : List String),
      alistLookup (depLoop reg ds resolver deps pool mb ud cache trace).cacheOf n =
        alistLookup cache n := by
  intro deps
  induction deps with
  | nil => intro pool mb ud cache trace; rfl
  | cons d rest ih =>
    intro pool mb ud cache trace
    cases hl : ds.lookupVar d with
    | some p =>
      rw [depLoop_cons_inDs reg ds resolver d rest pool mb ud cache trace p hl]
      exact ih (pool ++ [(d, p)]) mb ud cache trace
    | none =>
      by_cases hg : (getVariable reg d).isSome = true
      · rcases hro : resolver cache d with ⟨res, c1, t1⟩
        have hc1 : alistLookup c1 n = alistLookup cache n := by
          have h0 := hres cache d
          rw [hro] at h0
          exact h0
        cases res with
        | ok p =>
          rw [depLoop_cons_recOk reg ds resolver d rest pool mb ud cache trace p c1 t1
            hl hg hro]
          rw [ih (pool ++ [(d, p)]) mb ud c1 (trace ++ t1)]
          exact hc1
        | error e =>
          cases habort : (e.isCyclic || e.isOutOfFuel) with
          | true =>
            rw [depLoop_cons_recAbort reg ds resolver d rest pool mb ud cache trace e c1 t1
              hl hg hro habort]
            exact hc1
          | false =>
            rw [depLoop_cons_recErr reg ds resolver d rest pool mb ud cache trace e c1 t1
              hl hg hro habort]
            rw [ih pool mb (ud ++ [(d, e)]) c1 (trace ++ t1)]
            exact hc1
      · have hg2 : getVariable reg d = none := by
          cases hgv : getVariable reg d with
          | none => rfl
          | some v => rw [hgv] at hg; exact absurd rfl hg
        rw [depLoop_cons_missing reg ds resolver d rest pool mb ud cache trace hl hg2]
        exact ih pool (mb ++ [d]) ud cache trace

/-- A resolve call never touches the cache entry of a name that is already
on its resolving stack: below such a call the name can only fail
cyclically, never be computed. -/
lemma resolveGo_lookup_stable (reg : List DerivedVariable) (ds : Ds) (n : String) :
    ∀ (fuel : Nat) (stack : List String) (cache : Cache) (m : String),
      stack.contains n = true →
      alistLookup ((resolveGo reg ds fuel stack cache m).2.1) n = alistLookup cache n := by
  intro fuel
  induction fuel with
  | zero => intro stack cache m _; rfl
  | succ fuel ih =>
    intro stack cache m hn
    have hn2 : (m :: stack).contains n = true := by
      simp only [List.contains_cons, Bool.or_eq_true]
      exact Or.inr hn
    cases hc : alistLookup cache m with
    | some p => rw [resolveGo_hit reg ds fuel stack cache m p hc]
    | none =>
      cases hs : stack.contains m with
      | true => rw [resolveGo_cyclic_eq reg ds fuel stack cache m hc hs]
      | false =>
        cases hv : getVariable reg m with
        | none => rw [resolveGo_unknown_eq reg ds fuel stack cache m hc hs hv]
        | some vdef =>
          have hloop := depLoop_lookup_stable reg ds
            (fun c d => resolveGo reg ds fuel (m :: stack) c d) n
            (fun c d => ih (m :: stack) c d hn2)
            vdef.dependencies [] [] [] cache []
          cases hout : frameLoop reg ds fuel stack cache m vdef with
          | aborted e c t =>
            rw [resolveGo_aborted_eq reg ds fuel stack cache m vdef e c t hc hs hv hout]
            unfold frameLoop at hout
            rw [hout] at hloop
            exact hloop
          | finished pool mb ud c t =>
            have hcache : alistLookup c n = alistLookup cache n := by
              unfold frameLoop at hout
              rw [hout] at hloop
              exact hloop
            cases hempty : (mb.isEmpty && ud.isEmpty) with
            | true =>
              cases hf : vdef.func pool with
              | raiseExc =>
                rw [resolveGo_computeFail_eq reg ds fuel stack cache m vdef pool mb ud c t
                  hc hs hv hout hempty hf]
                exact hcache
              | nonDataArray =>
                rw [resolveGo_nonDataArray_eq reg ds fuel stack cache m vdef pool mb ud c t
                  hc hs hv hout hempty hf]
                exact hcache
              | val q =>
                rw [resolveGo_val_eq reg ds fuel stack cache m vdef pool mb ud c t q
                  hc hs hv hout hempty hf]
                have hmn : ¬ m = n := by
                  intro hmn
                  rw [hmn] at hs
                  rw [hn] at hs
                  cases hs
                show alistLookup ((m, finalPayload m vdef q) :: c) n = alistLookup cache n
                rw [alistLookup_cons, if_neg hmn]
                exact hcache
            | false =>
              cases hcvm : (missingBaseFilter reg ds vdef).isEmpty with
              | true =>
                rw [resolveGo_missing_combined_eq reg ds fuel stack cache m vdef pool mb ud c t
                  hc hs hv hout hempty hcvm]
                exact hcache
              | false =>
                rw [resolveGo_missing_flat_eq reg ds fuel stack cache m vdef pool mb ud c t
                  hc hs hv hout hempty hcvm]
                exact hcache

/-- If every recursive call preserves cached entries, so does the whole
dependency loop. -/
lemma depLoop_lookup_mono (reg : List DerivedVariable) (ds : Ds)
    (resolver : Cache → String → ResolveOut)
    (hres : ∀ c d k q, alistLookup c k = some q →
      alistLookup ((resolver c d).2.1) k = some q) :
    ∀ (deps : List String) (pool : List (String × Payload)) (mb : List String)
      (ud : List (String × XErr)) (cache : Cache) (trace : List String)
      (k : String) (q : Payload), alistLookup cache k = some q →
      alistLookup (depLoop reg ds resolver deps pool mb ud cache trace).cacheOf k = some q := by
  intro deps
  induction deps with
  | nil => intro pool mb ud cache trace k q hk; exact hk
  | cons d rest ih =>
    intro pool mb ud cache trace k q hk
    cases hl : ds.lookupVar d with
    | some p =>
      rw [depLoop_cons_inDs reg ds resolver d rest pool mb ud cache trace p hl]
      exact ih (pool ++ [(d, p)]) mb ud cache trace k q hk
    | none =>
      by_cases hg : (getVariable reg d).isSome = true
      · rcases hro : resolver cache d with ⟨res, c1, t1⟩
        have hc1 : alistLookup c1 k = some q := by
          have h0 := hres cache d k q hk
          rw [hro] at h0
          exact h0
        cases res with
        | ok p =>
          rw [depLoop_cons_recOk reg ds resolver d rest pool mb ud cache trace p c1 t1
            hl hg hro]
          exact ih (pool ++ [(d, p)]) mb ud c1 (trace ++ t1) k q hc1
        | error e =>
          cases habort : (e.isCyclic || e.isOutOfFuel) with
          | true =>
            rw [depLoop_cons_recAbort reg ds resolver d rest pool mb ud cache trace e c1 t1
              hl hg hro habort]
            exact hc1
          | false =>
            rw [depLoop_cons_recErr reg ds resolver d rest pool mb ud cache trace e c1 t1
              hl hg hro habort]
            exact ih pool mb (ud ++ [(d, e)]) c1 (trace ++ t1) k q hc1
      · have hg2 : getVariable reg d = none := by
          cases hgv : getVariable reg d with
          | none => rfl
          | some v => rw [hgv] at hg; exact absurd rfl hg
        rw [depLoop_cons_missing reg ds resolver d rest pool mb ud cache trace hl hg2]
        exact ih pool (mb ++ [d]) ud cache trace k q hk

/-- Cache growth is monotone: an entry once present survives any later
resolve call with its payload unchanged (cache entries are final). -/
lemma resolveGo_lookup_mono (reg : List DerivedVariable) (ds : Ds) :
    ∀ (fuel : Nat) (stack : List String) (cache : Cache) (m : String)
      (k : String) (q : Payload), alistLookup cache k = some q →
      alistLookup ((resolveGo reg ds fuel stack cache m).2.1) k = some q := by
  intro fuel
  induction fuel with
  | zero => intro stack cache m k q hk; exact hk
  | succ fuel ih =>
    intro stack cache m k q hk
    cases hc : alistLookup cache m with
    | some p =>
      rw [resolveGo_hit reg ds fuel stack cache m p hc]
      exact hk
    | none =>
      cases hs : stack.contains m with
      | true =>
        rw [resolveGo_cyclic_eq reg ds fuel stack cache m hc hs]
        exact hk
      | false =>
        cases hv : getVariable reg m with
        | none =>
          rw [resolveGo_unknown_eq reg ds fuel stack cache m hc hs hv]
          exact hk
        | some vdef =>
          have hloop := depLoop_lookup_mono reg ds
            (fun c d => resolveGo reg ds fuel (m :: stack) c d)
            (fun c d => ih (m :: stack) c d)
            vdef.dependencies [] [] [] cache []
          have hstable := depLoop_lookup_stable reg ds
            (fun c d => resolveGo reg ds fuel (m :: stack) c d) m
            (fun c d => resolveGo_lookup_stable reg ds m fuel (m :: stack) c d
              (by simp))
            vdef.dependencies [] [] [] cache []
          cases hout : frameLoop reg ds fuel stack cache m vdef with
          | aborted e c t =>
            rw [resolveGo_aborted_eq reg ds fuel stack cache m vdef e c t hc hs hv hout]
            unfold frameLoop at hout
            rw [hout] at hloop
            exact hloop k q hk
          | finished pool mb ud c t =>
            have hcache : alistLookup c k = some q := by
              unfold frameLoop at hout
              rw [hout] at hloop
              exact hloop k q hk
            have hcm : alistLookup c m = none := by
              unfold frameLoop at hout
              rw [hout] at hstable
              simp only [LoopOut.cacheOf] at hstable
              rw [hstable]
              exact hc
            cases hempty : (mb.isEmpty && ud.isEmpty) with
            | true =>
              cases hf : vdef.func pool with
              | raiseExc =>
                rw [resolveGo_computeFail_eq reg ds fuel stack cache m vdef pool mb ud c t
                  hc hs hv hout hempty hf]
                exact hcache
              | nonDataArray =>
                rw [resolveGo_nonDataArray_eq reg ds fuel stack cache m vdef pool mb ud c t
                  hc hs hv hout hempty hf]
                exact hcache
              | val q2 =>
                rw [resolveGo_val_eq reg ds fuel stack cache m vdef pool mb ud c t q2
                  hc hs hv hout hempty hf]
                have hkm : ¬ m = k := by
                  intro hmk
                  rw [hmk] at hcm
                  rw [hcache] at hcm
                  cases hcm
                show alistLookup ((m, finalPayload m vdef q2) :: c) k = some q
                rw [alistLookup_cons, if_neg hkm]
                exact hcache
            | false =>
              cases hcvm : (missingBaseFilter reg ds vdef).isEmpty with
              | true =>
                rw [resolveGo_missing_combined_eq reg ds fuel stack cache m vdef pool mb ud c t
                  hc hs hv hout hempty hcvm]
                exact hcache
              | false =>
                rw [resolveGo_missing_flat_eq reg ds fuel stack cache m vdef pool mb ud c t
                  hc hs hv hout hempty hcvm]
                exact hcache
/-! Frame-level classification lemmas -/

lemma getVariable_mem (reg : List DerivedVariable) (n : String) (v : DerivedVariable)
    (h : getVariable reg n = some v) : v ∈ reg := by
  unfold getVariable at h
  exact List.mem_of_find?_eq_some h

/-- A loop abort always carries the re-raised circular error (or the fuel
marker): accumulated failures never abort the loop. -/
lemma depLoop_aborted_kind (reg : List DerivedVariable) (ds : Ds)
    (resolver : Cache → String → ResolveOut) :
    ∀ (deps : List String) (pool : List (String × Payload)) (mb : List String)
      (ud : List (String × XErr)) (cache : Cache) (trace : List String)
      (e : XErr) (c : Cache) (t : List String),
      depLoop reg ds resolver deps pool mb ud cache trace = LoopOut.aborted e c t →
      (e.isCyclic || e.isOutOfFuel) = true := by
  intro deps
  induction deps with
  | nil =>
    intro pool mb ud cache trace e c t h
    rw [depLoop_nil] at h
    cases h
  | cons d rest ih =>
    intro pool mb ud cache trace e c t h
    cases hl : ds.lookupVar d with
    | some p =>
      rw [depLoop_cons_inDs reg ds resolver d rest pool mb ud cache trace p hl] at h
      exact ih (pool ++ [(d, p)]) mb ud cache trace e c t h
    | none =>
      by_cases hg : (getVariable reg d).isSome = true
      · rcases hro : resolver cache d with ⟨res, c1, t1⟩
        cases res with
        | ok p =>
          rw [depLoop_cons_recOk reg ds resolver d rest pool mb ud cache trace p c1 t1
            hl hg hro] at h
          exact ih (pool ++ [(d, p)]) mb ud c1 (trace ++ t1) e c t h
        | error e2 =>
          cases habort : (e2.isCyclic || e2.isOutOfFuel) with
          | true =>
            rw [depLoop_cons_recAbort reg ds resolver d rest pool mb ud cache trace e2 c1 t1
              hl hg hro habort] at h
            cases h
            exact habort
          | false =>
            rw [depLoop_cons_recErr reg ds resolver d rest pool mb ud cache trace e2 c1 t1
              hl hg hro habort] at h
            exact ih pool mb (ud ++ [(d, e2)]) c1 (trace ++ t1) e c t h
      · have hg2 : getVariable reg d = none := by
          cases hgv : getVariable reg d with
          | none => rfl
          | some v => rw [hgv] at hg; exact absurd rfl hg
        rw [depLoop_cons_missing reg ds resolver d rest pool mb ud cache trace hl hg2] at h
        exact ih pool (mb ++ [d]) ud cache trace e c t h

/-- If no recursive call ever reports fuel exhaustion, an aborted loop
carries a genuine circular error. -/
lemma depLoop_aborted_not_fuel (reg : List DerivedVariable) (ds : Ds)
    (resolver : Cache → String → ResolveOut)
    (hres : ∀ c d, (resolver c d).1 ≠ Except.error XErr.outOfFuel) :
    ∀ (deps : List String) (pool : List (String × Payload)) (mb : List String)
      (ud : List (String × XErr)) (cache : Cache) (trace : List String)
      (e : XErr) (c : Cache) (t : List String),
      depLoop reg ds resolver deps pool mb ud cache trace = LoopOut.aborted e c t →
      e ≠ XErr.outOfFuel := by
  intro deps
  induction deps with
  | nil =>
    intro pool mb ud cache trace e c t h
    rw [depLoop_nil] at h
    cases h
  | cons d rest ih =>
    intro pool mb ud cache trace e c t h
    cases hl : ds.lookupVar d with
    | some p =>
      rw [depLoop_cons_inDs reg ds resolver d rest pool mb ud cache trace p hl] at h
      exact ih (pool ++ [(d, p)]) mb ud cache trace e c t h
    | none =>
      by_cases hg : (getVariable reg d).isSome = true
      · rcases hro : resolver cache d with ⟨res, c1, t1⟩
        cases res with
        | ok p =>
          rw [depLoop_cons_recOk reg ds resolver d rest pool mb ud cache trace p c1 t1
            hl hg hro] at h
          exact ih (pool ++ [(d, p)]) mb ud c1 (trace ++ t1) e c t h
        | error e2 =>
          cases habort : (e2.isCyclic || e2.isOutOfFuel) with
          | true =>
            rw [depLoop_cons_recAbort reg ds resolver d rest pool mb ud cache trace e2 c1 t1
              hl hg hro habort] at h
            cases h
            intro hfe
            subst hfe
            have h0 := hres cache d
            rw [hro] at h0
            exact h0 rfl
          | false =>
            rw [depLoop_cons_recErr reg ds resolver d rest pool mb ud cache trace e2 c1 t1
              hl hg hro habort] at h
            exact ih pool mb (ud ++ [(d, e2)]) c1 (trace ++ t1) e c t h
      · have hg2 : getVariable reg d = none := by
          cases hgv : getVariable reg d with
          | none => rfl
          | some v => rw [hgv] at hg; exact absurd rfl hg
        rw [depLoop_cons_missing reg ds resolver d rest pool mb ud cache trace hl hg2] at h
        exact ih pool (mb ++ [d]) ud cache trace e c t h

/-- The missing-base accumulator of a finished loop is exactly the input
followed by the dependencies that are neither in the dataset nor
registered, in declaration order. -/
lemma depLoop_finished_mb (reg : List DerivedVariable) (ds : Ds)
    (resolver : Cache → String → ResolveOut) :
    ∀ (deps : List String) (pool : List (String × Payload)) (mb : List String)
      (ud : List (String × XErr)) (cache : Cache) (trace : List String)
      (pool2 : List (String × Payload)) (mb2 : List String) (ud2 : List (String × XErr))
      (c2 : Cache) (t2 : List String),
      depLoop reg ds resolver deps pool mb ud cache trace =
        LoopOut.finished pool2 mb2 ud2 c2 t2 →
      mb2 = mb ++ deps.filter (fun d => !ds.hasName d && !(getVariable reg d).isSome) := by
  intro deps
  induction deps with
  | nil =>
    intro pool mb ud cache trace pool2 mb2 ud2 c2 t2 h
    rw [depLoop_nil] at h
    cases h
    simp
  | cons d rest ih =>
    intro pool mb ud cache trace pool2 mb2 ud2 c2 t2 h
    cases hl : ds.lookupVar d with
    | some p =>
      have hds : ds.hasName d = true := by
        unfold Ds.hasName
        rw [hl]
        rfl
      rw [depLoop_cons_inDs reg ds resolver d rest pool mb ud cache trace p hl] at h
      rw [ih (pool ++ [(d, p)]) mb ud cache trace pool2 mb2 ud2 c2 t2 h]
      rw [List.filter_cons]
      simp [hds]
    | none =>
      have hds : ds.hasName d = false := by
        unfold Ds.hasName
        rw [hl]
        rfl
      by_cases hg : (getVariable reg d).isSome = true
      · rcases hro : resolver cache d with ⟨res, c1, t1⟩
        have hfilter : (rest.filter (fun d => !ds.hasName d && !(getVariable reg d).isSome)) =
            ((d :: rest).filter (fun d => !ds.hasName d && !(getVariable reg d).isSome)) := by
          rw [List.filter_cons]
          simp [hg]
        cases res with
        | ok p =>
          rw [depLoop_cons_recOk reg ds resolver d rest pool mb ud cache trace p c1 t1
            hl hg hro] at h
          rw [ih (pool ++ [(d, p)]) mb ud c1 (trace ++ t1) pool2 mb2 ud2 c2 t2 h, hfilter]
        | error e2 =>
          cases habort : (e2.isCyclic || e2.isOutOfFuel) with
          | true =>
            rw [depLoop_cons_recAbort reg ds resolver d rest pool mb ud cache trace e2 c1 t1
              hl hg hro habort] at h
            cases h
          | false =>
            rw [depLoop_cons_recErr reg ds resolver d rest pool mb ud cache trace e2 c1 t1
              hl hg hro habort] at h
            rw [ih pool mb (ud ++ [(d, e2)]) c1 (trace ++ t1) pool2 mb2 ud2 c2 t2 h, hfilter]
      · have hg2 : getVariable reg d = none := by
          cases hgv : getVariable reg d with
          | none => rfl
          | some v => rw [hgv] at hg; exact absurd rfl hg
        have hgb : (getVariable reg d).isSome = false := by
          rw [hg2]
          rfl
        rw [depLoop_cons_missing reg ds resolver d rest pool mb ud cache trace hl hg2] at h
        rw [ih pool (mb ++ [d]) ud cache trace pool2 mb2 ud2 c2 t2 h]
        rw [List.filter_cons]
        simp [hds, hgb]

/-- Both accumulators of a finished loop extend their inputs. -/
lemma depLoop_finished_ext (reg : List DerivedVariable) (ds : Ds)
    (resolver : Cache → String → ResolveOut) :
    ∀ (deps : List String) (pool : List (String × Payload)) (mb : List String)
      (ud : List (String × XErr)) (cache : Cache) (trace : List String)
      (pool2 : List (String × Payload)) (mb2 : List String) (ud2 : List (String × XErr))
      (c2 : Cache) (t2 : List String),
      depLoop reg ds resolver deps pool mb ud cache trace =
        LoopOut.finished pool2 mb2 ud2 c2 t2 →
      (∃ s1, mb2 = mb ++ s1) ∧ (∃ s2, ud2 = ud ++ s2) := by
  intro deps
  induction deps with
  | nil =>
    intro pool mb ud cache trace pool2 mb2 ud2 c2 t2 h
    rw [depLoop_nil] at h
    cases h
    exact ⟨⟨[], by simp⟩, ⟨[], by simp⟩⟩
  | cons d rest ih =>
    intro pool mb ud cache trace pool2 mb2 ud2 c2 t2 h
    cases hl : ds.lookupVar d with
    | some p =>
      rw [depLoop_cons_inDs reg ds resolver d rest pool mb ud cache trace p hl] at h
      exact ih (pool ++ [(d, p)]) mb ud cache trace pool2 mb2 ud2 c2 t2 h
    | none =>
      by_cases hg : (getVariable reg d).isSome = true
      · rcases hro : resolver cache d with ⟨res, c1, t1⟩
        cases res with
        | ok p =>
          rw [depLoop_cons_recOk reg ds resolver d rest pool mb ud cache trace p c1 t1
            hl hg hro] at h
          exact ih (pool ++ [(d, p)]) mb ud c1 (trace ++ t1) pool2 mb2 ud2 c2 t2 h
        | error e2 =>
          cases habort : (e2.isCyclic || e2.isOutOfFuel) with
          | true =>
            rw [depLoop_cons_recAbort reg ds resolver d rest pool mb ud cache trace e2 c1 t1
              hl hg hro habort] at h
            cases h
          | false =>
            rw [depLoop_cons_recErr reg ds resolver d rest pool mb ud cache trace e2 c1 t1
              hl hg hro habort] at h
            rcases ih pool mb (ud ++ [(d, e2)]) c1 (trace ++ t1) pool2 mb2 ud2 c2 t2 h
              with ⟨⟨s1, hs1⟩, ⟨s2, hs2⟩⟩
            refine ⟨⟨s1, hs1⟩, ⟨(d, e2) :: s2, ?_⟩⟩
            rw [hs2]
            simp
      · have hg2 : getVariable reg d = none := by
          cases hgv : getVariable reg d with
          | none => rfl
          | some v => rw [hgv] at hg; exact absurd rfl hg
        rw [depLoop_cons_missing reg ds resolver d rest pool mb ud cache trace hl hg2] at h
        rcases ih pool (mb ++ [d]) ud cache trace pool2 mb2 ud2 c2 t2 h
          with ⟨⟨s1, hs1⟩, ⟨s2, hs2⟩⟩
        refine ⟨⟨d :: s1, ?_⟩, ⟨s2, hs2⟩⟩
        rw [hs1]
        simp

/-- A failing resolve call leaves the cache entry of its own name exactly as
it was: only successful resolutions are cached. -/
lemma resolveGo_error_self (reg : List DerivedVariable) (ds : Ds)
    (fuel : Nat) (stack : List String) (cache : Cache) (m : String)
    (e : XErr) (c : Cache) (t : List String)
    (h : resolveGo reg ds fuel stack cache m = (Except.error e, c, t)) :
    alistLookup c m = alistLookup cache m := by
  cases fuel with
  | zero =>
    cases h
    rfl
  | succ fuel =>
    cases hc : alistLookup cache m with
    | some p =>
      rw [resolveGo_hit reg ds fuel stack cache m p hc] at h
      cases h
    | none =>
      cases hs : stack.contains m with
      | true =>
        rw [resolveGo_cyclic_eq reg ds fuel stack cache m hc hs] at h
        cases h
        exact hc
      | false =>
        cases hv : getVariable reg m with
        | none =>
          rw [resolveGo_unknown_eq reg ds fuel stack cache m hc hs hv] at h
          cases h
          exact hc
        | some vdef =>
          have hstable := depLoop_lookup_stable reg ds
            (fun c2 d => resolveGo reg ds fuel (m :: stack) c2 d) m
            (fun c2 d => resolveGo_lookup_stable reg ds m fuel (m :: stack) c2 d
              (by simp))
            vdef.dependencies [] [] [] cache []
          cases hout : frameLoop reg ds fuel stack cache m vdef with
          | aborted e2 c2 t2 =>
            rw [resolveGo_aborted_eq reg ds fuel stack cache m vdef e2 c2 t2
              hc hs hv hout] at h
            cases h
            unfold frameLoop at hout
            rw [hout] at hstable
            simp only [LoopOut.cacheOf] at hstable
            exact hstable.trans hc
          | finished pool mb ud c2 t2 =>
            have hcache : alistLookup c2 m = none := by
              unfold frameLoop at hout
              rw [hout] at hstable
              simp only [LoopOut.cacheOf] at hstable
              exact hstable.trans hc
            cases hempty : (mb.isEmpty && ud.isEmpty) with
            | true =>
              cases hf : vdef.func pool with
              | raiseExc =>
                rw [resolveGo_computeFail_eq reg ds fuel stack cache m vdef pool mb ud c2 t2
                  hc hs hv hout hempty hf] at h
                cases h
                exact hcache
              | nonDataArray =>
                rw [resolveGo_nonDataArray_eq reg ds fuel stack cache m vdef pool mb ud c2 t2
                  hc hs hv hout hempty hf] at h
                cases h
                exact hcache
              | val q =>
                rw [resolveGo_val_eq reg ds fuel stack cache m vdef pool mb ud c2 t2 q
                  hc hs hv hout hempty hf] at h
                cases h
            | false =>
              cases hcvm : (missingBaseFilter reg ds vdef).isEmpty with
              | true =>
                rw [resolveGo_missing_combined_eq reg ds fuel stack cache m vdef pool mb ud c2 t2
                  hc hs hv hout hempty hcvm] at h
                cases h
                exact hcache
              | false =>
                rw [resolveGo_missing_flat_eq reg ds fuel stack cache m vdef pool mb ud c2 t2
                  hc hs hv hout hempty hcvm] at h
                cases h
                exact hcache

/-- A successful resolve call leaves its payload under its own name in the
cache. -/
lemma resolveGo_ok_self (reg : List DerivedVariable) (ds : Ds)
    (fuel : Nat) (stack : List String) (cache : Cache) (m : String)
    (p : Payload) (c : Cache) (t : List String)
    (h : resolveGo reg ds (fuel + 1) stack cache m = (Except.ok p, c, t)) :
    alistLookup c m = some p := by
  cases hc : alistLookup cache m with
  | some p0 =>
    rw [resolveGo_hit reg ds fuel stack cache m p0 hc] at h
    cases h
    exact hc
  | none =>
    cases hs : stack.contains m with
    | true =>
      rw [resolveGo_cyclic_eq reg ds fuel stack cache m hc hs] at h
      cases h
    | false =>
      cases hv : getVariable reg m with
      | none =>
        rw [resolveGo_unknown_eq reg ds fuel stack cache m hc hs hv] at h
        cases h
      | some vdef =>
        cases hout : frameLoop reg ds fuel stack cache m vdef with
        | aborted e2 c2 t2 =>
          rw [resolveGo_aborted_eq reg ds fuel stack cache m vdef e2 c2 t2
            hc hs hv hout] at h
          cases h
        | finished pool mb ud c2 t2 =>
          cases hempty : (mb.isEmpty && ud.isEmpty) with
          | true =>
            cases hf : vdef.func pool with
            | raiseExc =>
              rw [resolveGo_computeFail_eq reg ds fuel stack cache m vdef pool mb ud c2 t2
                hc hs hv hout hempty hf] at h
              cases h
            | nonDataArray =>
              rw [resolveGo_nonDataArray_eq reg ds fuel stack cache m vdef pool mb ud c2 t2
                hc hs hv hout hempty hf] at h
              cases h
            | val q =>
              rw [resolveGo_val_eq reg ds fuel stack cache m vdef pool mb ud c2 t2 q
                hc hs hv hout hempty hf] at h
              cases h
              rw [alistLookup_cons, if_pos rfl]
          | false =>
            cases hcvm : (missingBaseFilter reg ds vdef).isEmpty with
            | true =>
              rw [resolveGo_missing_combined_eq reg ds fuel stack cache m vdef pool mb ud c2 t2
                hc hs hv hout hempty hcvm] at h
              cases h
            | false =>
              rw [resolveGo_missing_flat_eq reg ds fuel stack cache m vdef pool mb ud c2 t2
                hc hs hv hout hempty hcvm] at h
              cases h

/-- A successful resolve call on an uncached name invoked the compute
function of that very name (it appears in the trace). -/
lemma resolveGo_ok_trace (reg : List DerivedVariable) (ds : Ds)
    (fuel : Nat) (stack : List String) (cache : Cache) (m : String)
    (p : Payload) (c : Cache) (t : List String)
    (hc : alistLookup cache m = none)
    (h : resolveGo reg ds (fuel + 1) stack cache m = (Except.ok p, c, t)) :
    m ∈ t := by
  cases hs : stack.contains m with
  | true =>
    rw [resolveGo_cyclic_eq reg ds fuel stack cache m hc hs] at h
    cases h
  | false =>
    cases hv : getVariable reg m with
    | none =>
      rw [resolveGo_unknown_eq reg ds fuel stack cache m hc hs hv] at h
      cases h
    | some vdef =>
      cases hout : frameLoop reg ds fuel stack cache m vdef with
      | aborted e2 c2 t2 =>
        rw [resolveGo_aborted_eq reg ds fuel stack cache m vdef e2 c2 t2
          hc hs hv hout] at h
        cases h
      | finished pool mb ud c2 t2 =>
        cases hempty : (mb.isEmpty && ud.isEmpty) with
        | true =>
          cases hf : vdef.func pool with
          | raiseExc =>
            rw [resolveGo_computeFail_eq reg ds fuel stack cache m vdef pool mb ud c2 t2
              hc hs hv hout hempty hf] at h
            cases h
          | nonDataArray =>
            rw [resolveGo_nonDataArray_eq reg ds fuel stack cache m vdef pool mb ud c2 t2
              hc hs hv hout hempty hf] at h
            cases h
          | val q =>
            rw [resolveGo_val_eq reg ds fuel stack cache m vdef pool mb ud c2 t2 q
              hc hs hv hout hempty hf] at h
            cases h
            simp
        | false =>
          cases hcvm : (missingBaseFilter reg ds vdef).isEmpty with
          | true =>
            rw [resolveGo_missing_combined_eq reg ds fuel stack cache m vdef pool mb ud c2 t2
              hc hs hv hout hempty hcvm] at h
            cases h
          | false =>
            rw [resolveGo_missing_flat_eq reg ds fuel stack cache m vdef pool mb ud c2 t2
              hc hs hv hout hempty hcvm] at h
            cases h
/-- With the stack-based fuel bound the fuel marker is unreachable: the
embedding never pretends the source recursion diverged. -/
lemma resolveGo_no_outOfFuel (reg : List DerivedVariable) (ds : Ds) :
    ∀ (fuel : Nat) (stack : List String) (cache : Cache) (m : String),
      freeNames reg stack < fuel →
      (resolveGo reg ds fuel stack cache m).1 ≠ Except.error XErr.outOfFuel := by
  intro fuel
  induction fuel with
  | zero =>
    intro stack cache m hfree
    exact absurd hfree (Nat.not_lt_zero _)
  | succ fuel ih =>
    intro stack cache m hfree
    cases hc : alistLookup cache m with
    | some p =>
      rw [resolveGo_hit reg ds fuel stack cache m p hc]
      intro h
      cases h
    | none =>
      cases hs : stack.contains m with
      | true =>
        rw [resolveGo_cyclic_eq reg ds fuel stack cache m hc hs]
        intro h
        cases h
      | false =>
        cases hv : getVariable reg m with
        | none =>
          rw [resolveGo_unknown_eq reg ds fuel stack cache m hc hs hv]
          intro h
          cases h
        | some vdef =>
          have hfree2 : freeNames reg (m :: stack) < fuel := by
            have hlt := freeNames_cons_lt reg stack m (by rw [hv]; rfl) hs
            omega
          have hres : ∀ c2 d, (resolveGo reg ds fuel (m :: stack) c2 d).1 ≠
              Except.error XErr.outOfFuel := fun c2 d => ih (m :: stack) c2 d hfree2
          cases hout : frameLoop reg ds fuel stack cache m vdef with
          | aborted e2 c2 t2 =>
            rw [resolveGo_aborted_eq reg ds fuel stack cache m vdef e2 c2 t2 hc hs hv hout]
            intro h
            have hne := depLoop_aborted_not_fuel reg ds
              (fun c3 d => resolveGo reg ds fuel (m :: stack) c3 d) hres
              vdef.dependencies [] [] [] cache [] e2 c2 t2 (by rw [← hout]; rfl)
            injection h with h2
            exact hne h2
          | finished pool mb ud c2 t2 =>
            cases hempty : (mb.isEmpty && ud.isEmpty) with
            | true =>
              cases hf : vdef.func pool with
              | raiseExc =>
                rw [resolveGo_computeFail_eq reg ds fuel stack cache m vdef pool mb ud c2 t2
                  hc hs hv hout hempty hf]
                intro h
                injection h with h2
                cases h2
              | nonDataArray =>
                rw [resolveGo_nonDataArray_eq reg ds fuel stack cache m vdef pool mb ud c2 t2
                  hc hs hv hout hempty hf]
                intro h
                injection h with h2
                cases h2
              | val q =>
                rw [resolveGo_val_eq reg ds fuel stack cache m vdef pool mb ud c2 t2 q
                  hc hs hv hout hempty hf]
                intro h
                cases h
            | false =>
              cases hcvm : (missingBaseFilter reg ds vdef).isEmpty with
              | true =>
                rw [resolveGo_missing_combined_eq reg ds fuel stack cache m vdef pool mb ud c2 t2
                  hc hs hv hout hempty hcvm]
                intro h
                injection h with h2
                cases h2
              | false =>
                rw [resolveGo_missing_flat_eq reg ds fuel stack cache m vdef pool mb ud c2 t2
                  hc hs hv hout hempty hcvm]
                intro h
                injection h with h2
                cases h2

/-- When every registered compute function returns a DataArray, no resolve
call fails with a ComputationError of the compute-failure or wrong-type
kind: a frame only produces them from its own compute function, and nested
ones are absorbed into missing-dependency reports by the caller. -/
lemma resolveGo_no_computeFail (reg : List DerivedVariable) (ds : Ds)
    (hT : FuncsTotal reg) (fuel : Nat) (stack : List String) (cache : Cache)
    (m : String) (k : String) :
    (resolveGo reg ds fuel stack cache m).1 ≠ Except.error (XErr.computeFail k) ∧
      (resolveGo reg ds fuel stack cache m).1 ≠ Except.error (XErr.nonDataArray k) := by
  cases fuel with
  | zero =>
    constructor
    · intro h
      cases h
    · intro h
      cases h
  | succ fuel =>
    cases hc : alistLookup cache m with
    | some p =>
      rw [resolveGo_hit reg ds fuel stack cache m p hc]
      constructor
      · intro h
        cases h
      · intro h
        cases h
    | none =>
      cases hs : stack.contains m with
      | true =>
        rw [resolveGo_cyclic_eq reg ds fuel stack cache m hc hs]
        constructor
        · intro h
          injection h with h1
          cases h1
        · intro h
          injection h with h1
          cases h1
      | false =>
        cases hv : getVariable reg m with
        | none =>
          rw [resolveGo_unknown_eq reg ds fuel stack cache m hc hs hv]
          constructor
          · intro h
            injection h with h1
            cases h1
          · intro h
            injection h with h1
            cases h1
        | some vdef =>
          cases hout : frameLoop reg ds fuel stack cache m vdef with
          | aborted e2 c2 t2 =>
            rw [resolveGo_aborted_eq reg ds fuel stack cache m vdef e2 c2 t2 hc hs hv hout]
            have hkind := depLoop_aborted_kind reg ds
              (fun c3 d => resolveGo reg ds fuel (m :: stack) c3 d)
              vdef.dependencies [] [] [] cache [] e2 c2 t2 (by rw [← hout]; rfl)
            constructor
            · intro h
              injection h with h1
              subst h1
              cases hkind
            · intro h
              injection h with h1
              subst h1
              cases hkind
          | finished pool mb ud c2 t2 =>
            cases hempty : (mb.isEmpty && ud.isEmpty) with
            | true =>
              rcases hT vdef (getVariable_mem reg m vdef hv) pool with ⟨q, hq⟩
              rw [resolveGo_val_eq reg ds fuel stack cache m vdef pool mb ud c2 t2 q
                hc hs hv hout hempty hq]
              constructor
              · intro h
                cases h
              · intro h
                cases h
            | false =>
              cases hcvm : (missingBaseFilter reg ds vdef).isEmpty with
              | true =>
                rw [resolveGo_missing_combined_eq reg ds fuel stack cache m vdef pool mb ud c2 t2
                  hc hs hv hout hempty hcvm]
                constructor
                · intro h
                  injection h with h1
                  cases h1
                · intro h
                  injection h with h1
                  cases h1
              | false =>
                rw [resolveGo_missing_flat_eq reg ds fuel stack cache m vdef pool mb ud c2 t2
                  hc hs hv hout hempty hcvm]
                constructor
                · intro h
                  injection h with h1
                  cases h1
                · intro h
                  injection h with h1
                  cases h1
/-! Goodness soundness: successful resolutions only happen for good names -/

/-- Cache goodness: every cached name has a satisfiable dependency graph. -/
def CacheGood (reg : List DerivedVariable) (ds : Ds) (cache : Cache) : Prop :=
  ∀ k q, alistLookup cache k = some q → isGood reg ds k

lemma depLoop_good_sound (reg : List DerivedVariable) (ds : Ds)
    (resolver : Cache → String → ResolveOut)
    (hres : ∀ c d, CacheGood reg ds c →
      (CacheGood reg ds ((resolver c d).2.1) ∧
        (∀ p c1 t1, resolver c d = (Except.ok p, c1, t1) → isGood reg ds d))) :
    ∀ (deps : List String) (pool : List (String × Payload)) (mb : List String)
      (ud : List (String × XErr)) (cache : Cache) (trace : List String),
      CacheGood reg ds cache →
      (CacheGood reg ds (depLoop reg ds resolver deps pool mb ud cache trace).cacheOf ∧
        (∀ (pool2 : List (String × Payload)) (c2 : Cache) (t2 : List String),
          depLoop reg ds resolver deps pool mb ud cache trace =
            LoopOut.finished pool2 mb ud c2 t2 →
          ∀ d ∈ deps, ds.hasName d = true ∨ isGood reg ds d)) := by
  intro deps
  induction deps with
  | nil =>
    intro pool mb ud cache trace hcg
    constructor
    · exact hcg
    · intro pool2 c2 t2 _ d hd
      cases hd
  | cons d rest ih =>
    intro pool mb ud cache trace hcg
    cases hl : ds.lookupVar d with
    | some p =>
      have hds : ds.hasName d = true := by
        unfold Ds.hasName
        rw [hl]
        rfl
      rw [depLoop_cons_inDs reg ds resolver d rest pool mb ud cache trace p hl]
      rcases ih (pool ++ [(d, p)]) mb ud cache trace hcg with ⟨hg1, hg2⟩
      constructor
      · exact hg1
      · intro pool2 c2 t2 hfin d2 hd2
        rcases List.mem_cons.mp hd2 with rfl | hd2r
        · exact Or.inl hds
        · exact hg2 pool2 c2 t2 hfin d2 hd2r
    | none =>
      by_cases hg : (getVariable reg d).isSome = true
      · rcases hro : resolver cache d with ⟨res, c1, t1⟩
        have hpair := hres cache d hcg
        have hc1good : CacheGood reg ds c1 := by
          have h0 := hpair.1
          rw [hro] at h0
          exact h0
        cases res with
        | ok p =>
          have hdgood : isGood reg ds d := hpair.2 p c1 t1 hro
          rw [depLoop_cons_recOk reg ds resolver d rest pool mb ud cache trace p c1 t1
            hl hg hro]
          rcases ih (pool ++ [(d, p)]) mb ud c1 (trace ++ t1) hc1good with ⟨hg1, hg2⟩
          constructor
          · exact hg1
          · intro pool2 c2 t2 hfin d2 hd2
            rcases List.mem_cons.mp hd2 with rfl | hd2r
            · exact Or.inr hdgood
            · exact hg2 pool2 c2 t2 hfin d2 hd2r
        | error e2 =>
          cases habort : (e2.isCyclic || e2.isOutOfFuel) with
          | true =>
            rw [depLoop_cons_recAbort reg ds resolver d rest pool mb ud cache trace e2 c1 t1
              hl hg hro habort]
            constructor
            · exact hc1good
            · intro pool2 c2 t2 hfin
              cases hfin
          | false =>
            rw [depLoop_cons_recErr reg ds resolver d rest pool mb ud cache trace e2 c1 t1
              hl hg hro habort]
            rcases ih pool mb (ud ++ [(d, e2)]) c1 (trace ++ t1) hc1good with ⟨hg1, _⟩
            constructor
            · exact hg1
            · intro pool2 c2 t2 hfin
              exfalso
              rcases (depLoop_finished_ext reg ds resolver rest pool mb (ud ++ [(d, e2)])
                c1 (trace ++ t1) pool2 mb ud c2 t2 hfin).2 with ⟨s2, hs2⟩
              have hlen : ud.length = ((ud ++ [(d, e2)]) ++ s2).length := by
                rw [← hs2]
              simp only [List.length_append, List.length_cons, List.length_nil] at hlen
              omega
      · have hg2 : getVariable reg d = none := by
          cases hgv : getVariable reg d with
          | none => rfl
          | some v => rw [hgv] at hg; exact absurd rfl hg
        rw [depLoop_cons_missing reg ds resolver d rest pool mb ud cache trace hl hg2]
        rcases ih pool (mb ++ [d]) ud cache trace hcg with ⟨hg1, _⟩
        constructor
        · exact hg1
        · intro pool2 c2 t2 hfin
          exfalso
          rcases (depLoop_finished_ext reg ds resolver rest pool (mb ++ [d]) ud cache trace
            pool2 mb ud c2 t2 hfin).1 with ⟨s1, hs1⟩
          have hlen : mb.length = ((mb ++ [d]) ++ s1).length := by
            rw [← hs1]
          simp only [List.length_append, List.length_cons, List.length_nil] at hlen
          omega

/-- Soundness: a resolve call keeps the cache good, and whenever it returns
a payload the resolved name has a satisfiable dependency graph. -/
lemma resolveGo_good (reg : List DerivedVariable) (ds : Ds) :
    ∀ (fuel : Nat) (stack : List String) (cache : Cache) (m : String),
      CacheGood reg ds cache →
      (CacheGood reg ds ((resolveGo reg ds fuel stack cache m).2.1) ∧
        (∀ p c t, resolveGo reg ds fuel stack cache m = (Except.ok p, c, t) →
          isGood reg ds m)) := by
  intro fuel
  induction fuel with
  | zero =>
    intro stack cache m hcg
    constructor
    · exact hcg
    · intro p c t h
      cases h
  | succ fuel ih =>
    intro stack cache m hcg
    cases hc : alistLookup cache m with
    | some p0 =>
      rw [resolveGo_hit reg ds fuel stack cache m p0 hc]
      constructor
      · exact hcg
      · intro p c t h
        cases h
        exact hcg m p0 hc
    | none =>
      cases hs : stack.contains m with
      | true =>
        rw [resolveGo_cyclic_eq reg ds fuel stack cache m hc hs]
        constructor
        · exact hcg
        · intro p c t h
          cases h
      | false =>
        cases hv : getVariable reg m with
        | none =>
          rw [resolveGo_unknown_eq reg ds fuel stack cache m hc hs hv]
          constructor
          · exact hcg
          · intro p c t h
            cases h
        | some vdef =>
          have hloop := depLoop_good_sound reg ds
            (fun c2 d => resolveGo reg ds fuel (m :: stack) c2 d)
            (fun c2 d hcg2 => ih (m :: stack) c2 d hcg2)
            vdef.dependencies [] [] [] cache [] hcg
          cases hout : frameLoop reg ds fuel stack cache m vdef with
          | aborted e2 c2 t2 =>
            rw [resolveGo_aborted_eq reg ds fuel stack cache m vdef e2 c2 t2 hc hs hv hout]
            unfold frameLoop at hout
            rw [hout] at hloop
            constructor
            · exact hloop.1
            · intro p c t h
              cases h
          | finished pool mb ud c2 t2 =>
            unfold frameLoop at hout
            have hc2good : CacheGood reg ds c2 := by
              have h0 := hloop.1
              rw [hout] at h0
              exact h0
            cases hempty : (mb.isEmpty && ud.isEmpty) with
            | true =>
              have hpairEmpty : mb = [] ∧ ud = [] := by
                constructor
                · cases mb with
                  | nil => rfl
                  | cons a l => simp [List.isEmpty] at hempty
                · cases ud with
                  | nil => rfl
                  | cons a l => simp [List.isEmpty] at hempty
              have hmb : mb = [] := hpairEmpty.1
              have hud : ud = [] := hpairEmpty.2
              have hgoodm : isGood reg ds m := by
                have hdeps := hloop.2 pool c2 t2 (by rw [hout, hmb, hud])
                rcases good_deps_bound reg ds vdef.dependencies hdeps with ⟨K, hK⟩
                refine ⟨K + 1, ?_⟩
                refine (goodN_succ_iff reg ds K m).mpr ⟨vdef, hv, ?_⟩
                intro d hd
                rcases hK d hd with hds | hgN
                · exact Or.inl hds
                · exact Or.inr hgN
              cases hf : vdef.func pool with
              | raiseExc =>
                rw [resolveGo_computeFail_eq reg ds fuel stack cache m vdef pool mb ud c2 t2
                  hc hs hv (by unfold frameLoop; rw [hout]) hempty hf]
                constructor
                · exact hc2good
                · intro p c t h
                  cases h
              | nonDataArray =>
                rw [resolveGo_nonDataArray_eq reg ds fuel stack cache m vdef pool mb ud c2 t2
                  hc hs hv (by unfold frameLoop; rw [hout]) hempty hf]
                constructor
                · exact hc2good
                · intro p c t h
                  cases h
              | val q =>
                rw [resolveGo_val_eq reg ds fuel stack cache m vdef pool mb ud c2 t2 q
                  hc hs hv (by unfold frameLoop; rw [hout]) hempty hf]
                constructor
                · intro k q2 hk
                  rw [alistLookup_cons] at hk
                  by_cases hkm : m = k
                  · rw [← hkm]
                    exact hgoodm
                  · rw [if_neg hkm] at hk
                    exact hc2good k q2 hk
                · intro p c t h
                  exact hgoodm
            | false =>
              cases hcvm : (missingBaseFilter reg ds vdef).isEmpty with
              | true =>
                rw [resolveGo_missing_combined_eq reg ds fuel stack cache m vdef pool mb ud c2 t2
                  hc hs hv (by unfold frameLoop; rw [hout]) hempty hcvm]
                constructor
                · exact hc2good
                · intro p c t h
                  cases h
              | false =>
                rw [resolveGo_missing_flat_eq reg ds fuel stack cache m vdef pool mb ud c2 t2
                  hc hs hv (by unfold frameLoop; rw [hout]) hempty hcvm]
                constructor
                · exact hc2good
                · intro p c t h
                  cases h
/-! Goodness completeness: good names resolve when compute functions are
total -/

lemma depLoop_good_complete (reg : List DerivedVariable) (ds : Ds)
    (resolver : Cache → String → ResolveOut) :
    ∀ (deps : List String),
      (∀ d ∈ deps, ds.hasName d = true ∨
        ((getVariable reg d).isSome = true ∧
          ∀ c, ∃ p c1 t1, resolver c d = (Except.ok p, c1, t1))) →
      ∀ (pool : List (String × Payload)) (mb : List String) (ud : List (String × XErr))
        (cache : Cache) (trace : List String),
        ∃ pool2 c2 t2,
          depLoop reg ds resolver deps pool mb ud cache trace =
            LoopOut.finished pool2 mb ud c2 t2 := by
  intro deps
  induction deps with
  | nil =>
    intro _ pool mb ud cache trace
    exact ⟨pool, cache, trace, rfl⟩
  | cons d rest ih =>
    intro hdeps pool mb ud cache trace
    have hrest := fun d2 hd2 => hdeps d2 (List.mem_cons_of_mem d hd2)
    rcases hdeps d (List.mem_cons_self d rest) with hds | ⟨hreg, hok⟩
    · rcases Option.isSome_iff_exists.mp hds with ⟨p, hp⟩
      rcases ih hrest (pool ++ [(d, p)]) mb ud cache trace with ⟨pool2, c2, t2, hfin⟩
      exact ⟨pool2, c2, t2, by
        rw [depLoop_cons_inDs reg ds resolver d rest pool mb ud cache trace p hp]
        exact hfin⟩
    · by_cases hds : ds.hasName d = true
      · rcases Option.isSome_iff_exists.mp hds with ⟨p, hp⟩
        rcases ih hrest (pool ++ [(d, p)]) mb ud cache trace with ⟨pool2, c2, t2, hfin⟩
        exact ⟨pool2, c2, t2, by
          rw [depLoop_cons_inDs reg ds resolver d rest pool mb ud cache trace p hp]
          exact hfin⟩
      · have hl : ds.lookupVar d = none := by
          unfold Ds.hasName at hds
          cases hlv : ds.lookupVar d with
          | none => rfl
          | some p => rw [hlv] at hds; exact absurd rfl hds
        rcases hok cache with ⟨p, c1, t1, hro⟩
        rcases ih hrest (pool ++ [(d, p)]) mb ud c1 (trace ++ t1) with ⟨pool2, c2, t2, hfin⟩
        exact ⟨pool2, c2, t2, by
          rw [depLoop_cons_recOk reg ds resolver d rest pool mb ud cache trace p c1 t1
            hl hreg hro]
          exact hfin⟩

/-- Completeness: with total compute functions, a name whose dependency
graph is satisfiable resolves successfully from any cache, for any stack
respecting the invariant and enough fuel. -/
lemma resolveGo_good_complete (reg : List DerivedVariable) (ds : Ds)
    (hT : FuncsTotal reg) :
    ∀ (fuel : Nat) (stack : List String) (cache : Cache) (m : String),
      freeNames reg stack < fuel → isGood reg ds m → StackOk reg ds stack m →
      ∃ p c t, resolveGo reg ds fuel stack cache m = (Except.ok p, c, t) := by
  intro fuel
  induction fuel with
  | zero =>
    intro stack cache m hfree
    exact absurd hfree (Nat.not_lt_zero _)
  | succ fuel ih =>
    intro stack cache m hfree hgood hstk
    cases hc : alistLookup cache m with
    | some p =>
      exact ⟨p, cache, [], resolveGo_hit reg ds fuel stack cache m p hc⟩
    | none =>
      have hs : stack.contains m = false := StackOk_not_mem reg ds stack m hstk hgood
      rcases hgood with ⟨k, hk⟩
      have hreg : (getVariable reg m).isSome = true := goodN_registered reg ds k m hk
      rcases Option.isSome_iff_exists.mp hreg with ⟨vdef, hv⟩
      have hfree2 : freeNames reg (m :: stack) < fuel := by
        have hlt := freeNames_cons_lt reg stack m hreg hs
        omega
      have hdeps : ∀ d ∈ vdef.dependencies, ds.hasName d = true ∨
          ((getVariable reg d).isSome = true ∧
            ∀ c2, ∃ p c1 t1,
              resolveGo reg ds fuel (m :: stack) c2 d = (Except.ok p, c1, t1)) := by
        intro d hd
        by_cases hds : ds.hasName d = true
        · exact Or.inl hds
        · have hds2 : ds.hasName d = false := by
            cases hdb : ds.hasName d with
            | false => rfl
            | true => exact absurd hdb hds
          have hdesc := good_dep_descent reg ds m d vdef hv hd hds2
          rcases hdesc k hk with ⟨j, _, hgj⟩
          have hdgood : isGood reg ds d := ⟨j, hgj⟩
          have hdreg : (getVariable reg d).isSome = true :=
            goodN_registered reg ds j d hgj
          refine Or.inr ⟨hdreg, fun c2 => ?_⟩
          exact ih (m :: stack) c2 d hfree2 hdgood
            (StackOk_push reg ds stack m d hstk hdesc)
      rcases depLoop_good_complete reg ds
        (fun c2 d => resolveGo reg ds fuel (m :: stack) c2 d)
        vdef.dependencies hdeps [] [] [] cache [] with ⟨pool2, c2, t2, hfin⟩
      rcases hT vdef (getVariable_mem reg m vdef hv) pool2 with ⟨q, hq⟩
      refine ⟨finalPayload m vdef q, (m, finalPayload m vdef q) :: c2, t2 ++ [m], ?_⟩
      exact resolveGo_val_eq reg ds fuel stack cache m vdef pool2 [] [] c2 t2 q
        hc hs hv (by unfold frameLoop; exact hfin) rfl hq
/-! Equivalence of Registry._is_computable with graph satisfiability -/

lemma compLoop_cons_ds (reg : List DerivedVariable) (ds : Ds) (recur : String → Bool)
    (d : String) (rest : List String) (h : ds.hasName d = true) :
    compLoop reg ds recur (d :: rest) = compLoop reg ds recur rest := by
  simp only [compLoop]
  rw [h]
  rfl

lemma compLoop_cons_recTrue (reg : List DerivedVariable) (ds : Ds) (recur : String → Bool)
    (d : String) (rest : List String) (h1 : ds.hasName d = false)
    (h2 : (getVariable reg d).isSome = true) (h3 : recur d = true) :
    compLoop reg ds recur (d :: rest) = compLoop reg ds recur rest := by
  simp only [compLoop]
  rw [h1, h2, h3]
  rfl

lemma compLoop_cons_recFalse (reg : List DerivedVariable) (ds : Ds) (recur : String → Bool)
    (d : String) (rest : List String) (h1 : ds.hasName d = false)
    (h2 : (getVariable reg d).isSome = true) (h3 : recur d = false) :
    compLoop reg ds recur (d :: rest) = false := by
  simp only [compLoop]
  rw [h1, h2, h3]
  rfl

lemma compLoop_cons_missing (reg : List DerivedVariable) (ds : Ds) (recur : String → Bool)
    (d : String) (rest : List String) (h1 : ds.hasName d = false)
    (h2 : (getVariable reg d).isSome = false) :
    compLoop reg ds recur (d :: rest) = false := by
  simp only [compLoop]
  rw [h1, h2]
  rfl

lemma compLoop_true_forall (reg : List DerivedVariable) (ds : Ds) (recur : String → Bool) :
    ∀ (deps : List String), compLoop reg ds recur deps = true →
      ∀ d ∈ deps, ds.hasName d = true ∨
        ((getVariable reg d).isSome = true ∧ recur d = true) := by
  intro deps
  induction deps with
  | nil => intro _ d hd; cases hd
  | cons d rest ih =>
    intro h d2 hd2
    cases hds : ds.hasName d with
    | true =>
      rw [compLoop_cons_ds reg ds recur d rest hds] at h
      rcases List.mem_cons.mp hd2 with rfl | hd2r
      · exact Or.inl hds
      · exact ih h d2 hd2r
    | false =>
      cases hg : (getVariable reg d).isSome with
      | true =>
        cases hr : recur d with
        | true =>
          rw [compLoop_cons_recTrue reg ds recur d rest hds hg hr] at h
          rcases List.mem_cons.mp hd2 with rfl | hd2r
          · exact Or.inr ⟨hg, hr⟩
          · exact ih h d2 hd2r
        | false =>
          rw [compLoop_cons_recFalse reg ds recur d rest hds hg hr] at h
          cases h
      | false =>
        rw [compLoop_cons_missing reg ds recur d rest hds hg] at h
        cases h

lemma compLoop_forall_true (reg : List DerivedVariable) (ds : Ds) (recur : String → Bool) :
    ∀ (deps : List String),
      (∀ d ∈ deps, ds.hasName d = true ∨
        ((getVariable reg d).isSome = true ∧ recur d = true)) →
      compLoop reg ds recur deps = true := by
  intro deps
  induction deps with
  | nil => intro _; rfl
  | cons d rest ih =>
    intro h
    have hrest := ih (fun d2 hd2 => h d2 (List.mem_cons_of_mem d hd2))
    rcases h d (List.mem_cons_self d rest) with hds | ⟨hg, hr⟩
    · rw [compLoop_cons_ds reg ds recur d rest hds]
      exact hrest
    · cases hds : ds.hasName d with
      | true =>
        rw [compLoop_cons_ds reg ds recur d rest hds]
        exact hrest
      | false =>
        rw [compLoop_cons_recTrue reg ds recur d rest hds hg hr]
        exact hrest

lemma compStep_eq (reg : List DerivedVariable) (ds : Ds)
    (recur : String → List String → Bool) (varName : String) (stack : List String)
    (vdef : DerivedVariable) (h1 : stack.contains varName = false)
    (h2 : getVariable reg varName = some vdef) :
    compStep reg ds recur varName stack =
      compLoop reg ds (fun d => recur d (varName :: stack)) vdef.dependencies := by
  unfold compStep
  rw [h1, h2]
  rfl

/-- A true result of the fueled _is_computable certifies graph
satisfiability. -/
lemma isComputableGo_true_good (reg : List DerivedVariable) (ds : Ds) :
    ∀ (fuel : Nat) (n : String) (stack : List String),
      isComputableGo reg ds fuel n stack = true → isGood reg ds n := by
  intro fuel
  induction fuel with
  | zero =>
    intro n stack h
    cases h
  | succ fuel ih =>
    intro n stack h
    have hstep : compStep reg ds (isComputableGo reg ds fuel) n stack = true := h
    cases hs : stack.contains n with
    | true =>
      unfold compStep at hstep
      rw [hs] at hstep
      cases hstep
    | false =>
      cases hv : getVariable reg n with
      | none =>
        unfold compStep at hstep
        rw [hs, hv] at hstep
        cases hstep
      | some vdef =>
        rw [compStep_eq reg ds (isComputableGo reg ds fuel) n stack vdef hs hv] at hstep
        have hall := compLoop_true_forall reg ds
          (fun d => isComputableGo reg ds fuel d (n :: stack)) vdef.dependencies hstep
        have hdeps : ∀ d ∈ vdef.dependencies, ds.hasName d = true ∨ isGood reg ds d := by
          intro d hd
          rcases hall d hd with hds | ⟨_, hr⟩
          · exact Or.inl hds
          · exact Or.inr (ih d (n :: stack) hr)
        rcases good_deps_bound reg ds vdef.dependencies hdeps with ⟨K, hK⟩
        exact ⟨K + 1, (goodN_succ_iff reg ds K n).mpr ⟨vdef, hv, hK⟩⟩

/-- A name with a satisfiable dependency graph passes the fueled
_is_computable from any stack respecting the invariant, with enough fuel. -/
lemma isComputableGo_good_true (reg : List DerivedVariable) (ds : Ds) :
    ∀ (fuel : Nat) (n : String) (stack : List String),
      freeNames reg stack < fuel → isGood reg ds n → StackOk reg ds stack n →
      isComputableGo reg ds fuel n stack = true := by
  intro fuel
  induction fuel with
  | zero =>
    intro n stack hfree
    exact absurd hfree (Nat.not_lt_zero _)
  | succ fuel ih =>
    intro n stack hfree hgood hstk
    have hs : stack.contains n = false := StackOk_not_mem reg ds stack n hstk hgood
    rcases hgood with ⟨k, hk⟩
    have hreg : (getVariable reg n).isSome = true := goodN_registered reg ds k n hk
    rcases Option.isSome_iff_exists.mp hreg with ⟨vdef, hv⟩
    have hfree2 : freeNames reg (n :: stack) < fuel := by
      have hlt := freeNames_cons_lt reg stack n hreg hs
      omega
    show compStep reg ds (isComputableGo reg ds fuel) n stack = true
    rw [compStep_eq reg ds (isComputableGo reg ds fuel) n stack vdef hs hv]
    apply compLoop_forall_true
    intro d hd
    by_cases hds : ds.hasName d = true
    · exact Or.inl hds
    · have hds2 : ds.hasName d = false := by
        cases hdb : ds.hasName d with
        | false => rfl
        | true => exact absurd hdb hds
      have hdesc := good_dep_descent reg ds n d vdef hv hd hds2
      rcases hdesc k hk with ⟨j, _, hgj⟩
      have hdreg : (getVariable reg d).isSome = true := goodN_registered reg ds j d hgj
      refine Or.inr ⟨hdreg, ?_⟩
      exact ih d (n :: stack) hfree2 ⟨j, hgj⟩ (StackOk_push reg ds stack n d hstk hdesc)

/-- Registry._is_computable decides exactly graph satisfiability. -/
lemma isComputableTop_iff_good (reg : List DerivedVariable) (ds : Ds) (n : String) :
    isComputableTop reg ds n = true ↔ isGood reg ds n := by
  constructor
  · intro h
    exact isComputableGo_true_good reg ds (reg.length + 1) n [] h
  · intro h
    apply isComputableGo_good_true reg ds (reg.length + 1) n []
    · rw [freeNames_nil]
      omega
    · exact h
    · intro x hx
      cases hx
/-! Equivalence of get_status._can_compute_recursive with graph
satisfiability -/

lemma canLoop_nil (reg : List DerivedVariable) (ds : Ds)
    (recur : String → List String × Bool → Bool × (List String × Bool))
    (allMet : Bool) (st : List String × Bool) :
    canLoop reg ds recur [] allMet st = (allMet, st) := rfl

lemma canLoop_cons_ds (reg : List DerivedVariable) (ds : Ds)
    (recur : String → List String × Bool → Bool × (List String × Bool))
    (d : String) (rest : List String) (allMet : Bool) (st : List String × Bool)
    (h : ds.hasName d = true) :
    canLoop reg ds recur (d :: rest) allMet st = canLoop reg ds recur rest allMet st := by
  simp only [canLoop]
  rw [h]
  rfl

lemma canLoop_cons_rec (reg : List DerivedVariable) (ds : Ds)
    (recur : String → List String × Bool → Bool × (List String × Bool))
    (d : String) (rest : List String) (allMet : Bool) (st : List String × Bool)
    (b : Bool) (st1 : List String × Bool)
    (h1 : ds.hasName d = false) (h2 : (getVariable reg d).isSome = true)
    (hro : recur d st = (b, st1)) :
    canLoop reg ds recur (d :: rest) allMet st =
      canLoop reg ds recur rest (allMet && b) st1 := by
  simp only [canLoop]
  rw [h1, h2, hro]
  rfl

lemma canLoop_cons_missing (reg : List DerivedVariable) (ds : Ds)
    (recur : String → List String × Bool → Bool × (List String × Bool))
    (d : String) (rest : List String) (allMet : Bool) (st : List String × Bool)
    (h1 : ds.hasName d = false) (h2 : (getVariable reg d).isSome = false) :
    canLoop reg ds recur (d :: rest) allMet st =
      canLoop reg ds recur rest false (st.1 ++ [d], st.2) := by
  simp only [canLoop]
  rw [h1, h2]
  rfl

lemma canStep_frame (reg : List DerivedVariable) (ds : Ds) (variableName : String)
    (recur : String → List String → List String × Bool → Bool × (List String × Bool))
    (varName : String) (stack : List String) (st : List String × Bool)
    (vdef : DerivedVariable)
    (h1 : stack.contains varName = false) (h2 : getVariable reg varName = some vdef) :
    canStep reg ds variableName recur varName stack st =
      canLoop reg ds (fun d st1 => recur d (varName :: stack) st1)
        vdef.dependencies true st := by
  unfold canStep
  rw [h1, h2]
  rfl

lemma canLoop_true_forall (reg : List DerivedVariable) (ds : Ds)
    (recur : String → List String × Bool → Bool × (List String × Bool)) :
    ∀ (deps : List String) (allMet : Bool) (st st2 : List String × Bool),
      canLoop reg ds recur deps allMet st = (true, st2) →
      allMet = true ∧
        ∀ d ∈ deps, ds.hasName d = true ∨
          ((getVariable reg d).isSome = true ∧
            ∃ stA st2A, recur d stA = (true, st2A)) := by
  intro deps
  induction deps with
  | nil =>
    intro allMet st st2 h
    rw [canLoop_nil] at h
    injection h with h1 _
    exact ⟨h1, fun d hd => absurd hd (List.not_mem_nil d)⟩
  | cons d rest ih =>
    intro allMet st st2 h
    cases hds : ds.hasName d with
    | true =>
      rw [canLoop_cons_ds reg ds recur d rest allMet st hds] at h
      rcases ih allMet st st2 h with ⟨hall, hrest⟩
      refine ⟨hall, ?_⟩
      intro d2 hd2
      rcases List.mem_cons.mp hd2 with rfl | hd2r
      · exact Or.inl hds
      · exact hrest d2 hd2r
    | false =>
      cases hg : (getVariable reg d).isSome with
      | true =>
        rcases hro : recur d st with ⟨b, st1⟩
        rw [canLoop_cons_rec reg ds recur d rest allMet st b st1 hds hg hro] at h
        rcases ih (allMet && b) st1 st2 h with ⟨hall, hrest⟩
        rcases (by simpa using hall : allMet = true ∧ b = true) with ⟨hA, hB⟩
        refine ⟨hA, ?_⟩
        intro d2 hd2
        rcases List.mem_cons.mp hd2 with rfl | hd2r
        · subst hB
          exact Or.inr ⟨hg, st, st1, hro⟩
        · exact hrest d2 hd2r
      | false =>
        rw [canLoop_cons_missing reg ds recur d rest allMet st hds hg] at h
        rcases ih false (st.1 ++ [d], st.2) st2 h with ⟨hall, _⟩
        cases hall
  
lemma canLoop_forall_true (reg : List DerivedVariable) (ds : Ds)
    (recur : String → List String × Bool → Bool × (List String × Bool)) :
    ∀ (deps : List String),
      (∀ d ∈ deps, ds.hasName d = true ∨
        ((getVariable reg d).isSome = true ∧ ∀ stA, recur d stA = (true, stA))) →
      ∀ (allMet : Bool) (st : List String × Bool),
        canLoop reg ds recur deps allMet st = (allMet, st) := by
  intro deps
  induction deps with
  | nil => intro _ allMet st; rfl
  | cons d rest ih =>
    intro h allMet st
    have hrest := ih (fun d2 hd2 => h d2 (List.mem_cons_of_mem d hd2))
    cases hds : ds.hasName d with
    | true =>
      rw [canLoop_cons_ds reg ds recur d rest allMet st hds]
      exact hrest allMet st
    | false =>
      rcases h d (List.mem_cons_self d rest) with hds2 | ⟨hg, hr⟩
      · rw [hds2] at hds
        cases hds
      · rw [canLoop_cons_rec reg ds recur d rest allMet st true st hds hg (hr st)]
        rw [Bool.and_true]
        exact hrest allMet st

/-- A true result of the fueled _can_compute_recursive certifies graph
satisfiability. -/
lemma canComputeRec_true_good (reg : List DerivedVariable) (ds : Ds)
    (variableName : String) :
    ∀ (fuel : Nat) (n : String) (stack : List String) (st st2 : List String × Bool),
      canComputeRec reg ds variableName fuel n stack st = (true, st2) →
      isGood reg ds n := by
  intro fuel
  induction fuel with
  | zero =>
    intro n stack st st2 h
    injection h with h1 _
    cases h1
  | succ fuel ih =>
    intro n stack st st2 h
    have hstep : canStep reg ds variableName (canComputeRec reg ds variableName fuel)
        n stack st = (true, st2) := h
    cases hs : stack.contains n with
    | true =>
      unfold canStep at hstep
      rw [hs] at hstep
      injection hstep with h1 _
      cases h1
    | false =>
      cases hv : getVariable reg n with
      | none =>
        unfold canStep at hstep
        rw [hs, hv] at hstep
        cases hdsn : ds.hasName n with
        | true =>
          rw [hdsn] at hstep
          injection hstep with h1 _
          cases h1
        | false =>
          rw [hdsn] at hstep
          injection hstep with h1 _
          cases h1
      | some vdef =>
        rw [canStep_frame reg ds variableName (canComputeRec reg ds variableName fuel)
          n stack st vdef hs hv] at hstep
        rcases canLoop_true_forall reg ds
          (fun d st1 => canComputeRec reg ds variableName fuel d (n :: stack) st1)
          vdef.dependencies true st st2 hstep with ⟨_, hall⟩
        have hdeps : ∀ d ∈ vdef.dependencies, ds.hasName d = true ∨ isGood reg ds d := by
          intro d hd
          rcases hall d hd with hds | ⟨_, stA, st2A, hr⟩
          · exact Or.inl hds
          · exact Or.inr (ih d (n :: stack) stA st2A hr)
        rcases good_deps_bound reg ds vdef.dependencies hdeps with ⟨K, hK⟩
        exact ⟨K + 1, (goodN_succ_iff reg ds K n).mpr ⟨vdef, hv, hK⟩⟩

/-- A name with a satisfiable dependency graph passes the fueled
_can_compute_recursive with the state untouched. -/
lemma canComputeRec_good_true (reg : List DerivedVariable) (ds : Ds)
    (variableName : String) :
    ∀ (fuel : Nat) (n : String) (stack : List String),
      freeNames reg stack < fuel → isGood reg ds n → StackOk reg ds stack n →
      ∀ st, canComputeRec reg ds variableName fuel n stack st = (true, st) := by
  intro fuel
  induction fuel with
  | zero =>
    intro n stack hfree
    exact absurd hfree (Nat.not_lt_zero _)
  | succ fuel ih =>
    intro n stack hfree hgood hstk st
    have hs : stack.contains n = false := StackOk_not_mem reg ds stack n hstk hgood
    rcases hgood with ⟨k, hk⟩
    have hreg : (getVariable reg n).isSome = true := goodN_registered reg ds k n hk
    rcases Option.isSome_iff_exists.mp hreg with ⟨vdef, hv⟩
    have hfree2 : freeNames reg (n :: stack) < fuel := by
      have hlt := freeNames_cons_lt reg stack n hreg hs
      omega
    show canStep reg ds variableName (canComputeRec reg ds variableName fuel)
        n stack st = (true, st)
    rw [canStep_frame reg ds variableName (canComputeRec reg ds variableName fuel)
      n stack st vdef hs hv]
    apply canLoop_forall_true
    intro d hd
    by_cases hds : ds.hasName d = true
    · exact Or.inl hds
    · have hds2 : ds.hasName d = false := by
        cases hdb : ds.hasName d with
        | false => rfl
        | true => exact absurd hdb hds
      have hdesc := good_dep_descent reg ds n d vdef hv hd hds2
      rcases hdesc k hk with ⟨j, _, hgj⟩
      have hdreg : (getVariable reg d).isSome = true := goodN_registered reg ds j d hgj
      refine Or.inr ⟨hdreg, ?_⟩
      intro stA
      exact ih d (n :: stack) hfree2 ⟨j, hgj⟩ (StackOk_push reg ds stack n d hstk hdesc) stA

lemma get_status_unregistered (reg : List DerivedVariable) (ds : Ds) (n : String)
    (hv : getVariable reg n = none) :
    get_status reg ds n = ⟨false, [], some "not_registered"⟩ := by
  unfold get_status
  rw [hv]

lemma get_status_registered_eq (reg : List DerivedVariable) (ds : Ds) (n : String)
    (v : DerivedVariable) (b : Bool) (mm : List String) (cy : Bool)
    (hv : getVariable reg n = some v)
    (hcc : canComputeRec reg ds n (reg.length + 1) n [] ([], false) = (b, (mm, cy))) :
    get_status reg ds n =
      ⟨b, if b then [] else sortedUnique mm,
        if b then none
        else if cy then some "cycle detected"
        else if !(sortedUnique mm).isEmpty then some "deps"
        else some "unknown"⟩ := by
  unfold get_status
  rw [hv, hcc]

/-- get_status reports computable exactly for the names whose dependency
graph is satisfiable from the dataset. -/
lemma get_status_computable_iff (reg : List DerivedVariable) (ds : Ds) (n : String) :
    (get_status reg ds n).computable = true ↔ isGood reg ds n := by
  constructor
  · intro h
    cases hv : getVariable reg n with
    | none =>
      rw [get_status_unregistered reg ds n hv] at h
      cases h
    | some v =>
      rcases hcc : canComputeRec reg ds n (reg.length + 1) n [] ([], false)
        with ⟨b, mm, cy⟩
      rw [get_status_registered_eq reg ds n v b mm cy hv hcc] at h
      have hb : b = true := h
      subst hb
      exact canComputeRec_true_good reg ds n (reg.length + 1) n [] ([], false)
        (mm, cy) hcc
  · intro h
    rcases h with ⟨k, hk⟩
    have hreg : (getVariable reg n).isSome = true := goodN_registered reg ds k n hk
    rcases Option.isSome_iff_exists.mp hreg with ⟨v, hv⟩
    have hcc := canComputeRec_good_true reg ds n (reg.length + 1) n []
      (by rw [freeNames_nil]; omega) ⟨k, hk⟩ (fun x hx => absurd hx (List.not_mem_nil x))
      ([], false)
    rw [get_status_registered_eq reg ds n v true [] false hv hcc]
/-! Order lemmas for the sorted() model -/

lemma lexLe_total : ∀ (as bs : List Char), lexLe as bs = true ∨ lexLe bs as = true := by
  intro as
  induction as with
  | nil => intro bs; exact Or.inl rfl
  | cons a as ih =>
    intro bs
    cases bs with
    | nil => exact Or.inr rfl
    | cons b bs =>
      by_cases h1 : a.val < b.val
      · left
        simp only [lexLe]
        rw [if_pos h1]
      · by_cases h2 : b.val < a.val
        · right
          simp only [lexLe]
          rw [if_pos h2]
        · rcases ih bs with hl | hr
          · left
            simp only [lexLe]
            rw [if_neg h1, if_neg h2]
            exact hl
          · right
            simp only [lexLe]
            rw [if_neg h2, if_neg h1]
            exact hr

lemma uintLt_iff_toNat (a b : UInt32) : a < b ↔ a.toNat < b.toNat := Iff.rfl

lemma lexLe_head_le (b c : Char) (bs cs : List Char)
    (h : lexLe (b :: bs) (c :: cs) = true) : ¬ c.val < b.val := by
  intro hlt
  have hnb : ¬ b.val < c.val := by
    intro hb
    rw [uintLt_iff_toNat] at hb hlt
    omega
  simp only [lexLe] at h
  rw [if_neg hnb, if_pos hlt] at h
  cases h

lemma lexLe_trans : ∀ (as bs cs : List Char),
    lexLe as bs = true → lexLe bs cs = true → lexLe as cs = true := by
  intro as
  induction as with
  | nil => intro bs cs _ _; rfl
  | cons a as ih =>
    intro bs cs h1 h2
    cases bs with
    | nil => cases h1
    | cons b bs =>
      cases cs with
      | nil => cases h2
      | cons c cs =>
        by_cases hab : a.val < b.val
        · have hbc : ¬ c.val < b.val := lexLe_head_le b c bs cs h2
          have hac : a.val < c.val := by
            rw [uintLt_iff_toNat] at hab ⊢
            have hn : ¬ c.val.toNat < b.val.toNat := by
              intro hx
              exact hbc ((uintLt_iff_toNat c.val b.val).mpr hx)
            omega
          simp only [lexLe]
          rw [if_pos hac]
        · by_cases hba : b.val < a.val
          · simp only [lexLe] at h1
            rw [if_neg hab, if_pos hba] at h1
            cases h1
          · by_cases hbc : b.val < c.val
            · have hac : a.val < c.val := by
                rw [uintLt_iff_toNat] at hbc ⊢
                have h1n : ¬ a.val.toNat < b.val.toNat := by
                  intro hx
                  exact hab ((uintLt_iff_toNat a.val b.val).mpr hx)
                have h2n : ¬ b.val.toNat < a.val.toNat := by
                  intro hx
                  exact hba ((uintLt_iff_toNat b.val a.val).mpr hx)
                omega
              simp only [lexLe]
              rw [if_pos hac]
            · by_cases hcb : c.val < b.val
              · simp only [lexLe] at h2
                rw [if_neg hbc, if_pos hcb] at h2
                cases h2
              · have hIneq : ¬ a.val.toNat < b.val.toNat ∧ ¬ b.val.toNat < a.val.toNat ∧
                    ¬ b.val.toNat < c.val.toNat ∧ ¬ c.val.toNat < b.val.toNat := by
                  refine ⟨?_, ?_, ?_, ?_⟩ <;> intro hx
                  · exact hab ((uintLt_iff_toNat a.val b.val).mpr hx)
                  · exact hba ((uintLt_iff_toNat b.val a.val).mpr hx)
                  · exact hbc ((uintLt_iff_toNat b.val c.val).mpr hx)
                  · exact hcb ((uintLt_iff_toNat c.val b.val).mpr hx)
                have hac : ¬ a.val < c.val := by
                  intro hx
                  rw [uintLt_iff_toNat] at hx
                  rcases hIneq with ⟨i1, i2, i3, i4⟩
                  omega
                have hca : ¬ c.val < a.val := by
                  intro hx
                  rw [uintLt_iff_toNat] at hx
                  rcases hIneq with ⟨i1, i2, i3, i4⟩
                  omega
                have hab2 : ¬ a.val < b.val := hab
                have hba2 : ¬ b.val < a.val := hba
                have hbc2 : ¬ b.val < c.val := hbc
                have hcb2 : ¬ c.val < b.val := hcb
                simp only [lexLe] at h1 h2 ⊢
                rw [if_neg hab2, if_neg hba2] at h1
                rw [if_neg hbc2, if_neg hcb2] at h2
                rw [if_neg hac, if_neg hca]
                exact ih bs cs h1 h2

lemma strLe_total (a b : String) : strLe a b = true ∨ strLe b a = true :=
  lexLe_total a.data b.data

lemma strLe_trans (a b c : String) (h1 : strLe a b = true) (h2 : strLe b c = true) :
    strLe a c = true :=
  lexLe_trans a.data b.data c.data h1 h2

lemma mem_insertName (x a : String) : ∀ (l : List String),
    x ∈ insertName a l ↔ x = a ∨ x ∈ l := by
  intro l
  induction l with
  | nil => simp [insertName]
  | cons b l ih =>
    by_cases h : strLe a b = true
    · simp only [insertName, if_pos h]
      constructor
      · intro hx
        rcases List.mem_cons.mp hx with rfl | hx2
        · exact Or.inl rfl
        · exact Or.inr hx2
      · intro hx
        rcases hx with rfl | hx2
        · exact List.mem_cons_self x _
        · exact List.mem_cons_of_mem a hx2
    · simp only [insertName, if_neg h]
      constructor
      · intro hx
        rcases List.mem_cons.mp hx with rfl | hx2
        · exact Or.inr (List.mem_cons_self x l)
        · rcases (ih).mp hx2 with rfl | hx3
          · exact Or.inl rfl
          · exact Or.inr (List.mem_cons_of_mem b hx3)
      · intro hx
        rcases hx with rfl | hx2
        · exact List.mem_cons_of_mem b ((ih).mpr (Or.inl rfl))
        · rcases List.mem_cons.mp hx2 with rfl | hx3
          · exact List.mem_cons_self x _
          · exact List.mem_cons_of_mem b ((ih).mpr (Or.inr hx3))

lemma mem_sortNames (x : String) : ∀ (l : List String),
    x ∈ sortNames l ↔ x ∈ l := by
  intro l
  induction l with
  | nil => simp [sortNames]
  | cons a l ih =>
    simp only [sortNames]
    rw [mem_insertName x a (sortNames l), ih]
    constructor
    · intro hx
      rcases hx with rfl | hx2
      · exact List.mem_cons_self x l
      · exact List.mem_cons_of_mem a hx2
    · intro hx
      rcases List.mem_cons.mp hx with rfl | hx2
      · exact Or.inl rfl
      · exact Or.inr hx2

lemma sorted_insertName (a : String) : ∀ (l : List String),
    List.Pairwise (fun u v => strLe u v = true) l →
    List.Pairwise (fun u v => strLe u v = true) (insertName a l) := by
  intro l
  induction l with
  | nil =>
    intro _
    simp [insertName]
  | cons b l ih =>
    intro hp
    rcases List.pairwise_cons.mp hp with ⟨hb, hl⟩
    by_cases h : strLe a b = true
    · simp only [insertName, if_pos h]
      refine List.pairwise_cons.mpr ⟨?_, hp⟩
      intro x hx
      rcases List.mem_cons.mp hx with rfl | hx2
      · exact h
      · exact strLe_trans a b x h (hb x hx2)
    · have hba : strLe b a = true := by
        rcases strLe_total a b with h1 | h2
        · exact absurd h1 h
        · exact h2
      simp only [insertName, if_neg h]
      refine List.pairwise_cons.mpr ⟨?_, ih hl⟩
      intro x hx
      rcases (mem_insertName x a l).mp hx with rfl | hx2
      · exact hba
      · exact hb x hx2

lemma sorted_sortNames : ∀ (l : List String),
    List.Pairwise (fun u v => strLe u v = true) (sortNames l) := by
  intro l
  induction l with
  | nil => exact List.Pairwise.nil
  | cons a l ih => exact sorted_insertName a (sortNames l) ih

lemma pyObj_isStr_iff (x : PyObj) : x.isStr = true ↔ ∃ t, x = PyObj.pstr t := by
  cases x <;> simp [PyObj.isStr]
/-! Branch equations and sibling independence for the dependency-tree loop -/

lemma depTreeLoop_cons_base (reg : List DerivedVariable) (ds : Ds) (recFlag : Bool)
    (recur : String → Except String DepResult) (d : String) (rest : List String)
    (acc : List (String × DepInfo)) (hb : (ds.truthy && ds.hasName d) = true) :
    depTreeLoop reg ds recFlag recur (d :: rest) acc =
      depTreeLoop reg ds recFlag recur rest (acc ++ [(d, DepInfo.baseInDataset)]) := by
  simp only [depTreeLoop]
  rw [if_pos hb]

lemma depTreeLoop_cons_recOk (reg : List DerivedVariable) (ds : Ds)
    (recur : String → Except String DepResult) (d : String) (rest : List String)
    (acc : List (String × DepInfo)) (sub : DepResult)
    (hb : (ds.truthy && ds.hasName d) = false)
    (hg : (getVariable reg d).isSome = true)
    (hr : recur d = Except.ok sub) :
    depTreeLoop reg ds true recur (d :: rest) acc =
      depTreeLoop reg ds true recur rest (acc ++ [(d, DepInfo.derivedRec sub)]) := by
  simp only [depTreeLoop]
  rw [if_neg (by simp [hb]), if_pos hg, if_pos trivial, hr]

lemma depTreeLoop_cons_recErr (reg : List DerivedVariable) (ds : Ds)
    (recur : String → Except String DepResult) (d : String) (rest : List String)
    (acc : List (String × DepInfo)) (e : String)
    (hb : (ds.truthy && ds.hasName d) = false)
    (hg : (getVariable reg d).isSome = true)
    (hr : recur d = Except.error e) :
    depTreeLoop reg ds true recur (d :: rest) acc = Except.error e := by
  simp only [depTreeLoop]
  rw [if_neg (by simp [hb]), if_pos hg, if_pos trivial, hr]

lemma depTreeLoop_cons_flat (reg : List DerivedVariable) (ds : Ds)
    (recur : String → Except String DepResult) (d : String) (rest : List String)
    (acc : List (String × DepInfo))
    (hb : (ds.truthy && ds.hasName d) = false)
    (hg : (getVariable reg d).isSome = true) :
    depTreeLoop reg ds false recur (d :: rest) acc =
      depTreeLoop reg ds false recur rest (acc ++ [(d, DepInfo.derivedFlat)]) := by
  simp only [depTreeLoop]
  rw [if_neg (by simp [hb]), if_pos hg, if_neg (by simp)]

lemma depTreeLoop_cons_missing (reg : List DerivedVariable) (ds : Ds) (recFlag : Bool)
    (recur : String → Except String DepResult) (d : String) (rest : List String)
    (acc : List (String × DepInfo))
    (hb : (ds.truthy && ds.hasName d) = false)
    (hg : (getVariable reg d).isSome = false)
    (ht : ds.truthy = true) :
    depTreeLoop reg ds recFlag recur (d :: rest) acc =
      depTreeLoop reg ds recFlag recur rest (acc ++ [(d, DepInfo.missingBase)]) := by
  simp only [depTreeLoop]
  rw [if_neg (by simp [hb]), if_neg (by simp [hg]), if_pos ht]

lemma depTreeLoop_cons_unknown (reg : List DerivedVariable) (ds : Ds) (recFlag : Bool)
    (recur : String → Except String DepResult) (d : String) (rest : List String)
    (acc : List (String × DepInfo))
    (hb : (ds.truthy && ds.hasName d) = false)
    (hg : (getVariable reg d).isSome = false)
    (ht : ds.truthy = false) :
    depTreeLoop reg ds recFlag recur (d :: rest) acc =
      depTreeLoop reg ds recFlag recur rest (acc ++ [(d, DepInfo.unknownOrMissingBase)]) := by
  simp only [depTreeLoop]
  rw [if_neg (by simp [hb]), if_neg (by simp [hg]), if_neg (by simp [ht])]

lemma depTreeLoop_append (reg : List DerivedVariable) (ds : Ds) (recFlag : Bool)
    (recur : String → Except String DepResult) :
    ∀ (l1 l2 : List String) (acc : List (String × DepInfo)),
    depTreeLoop reg ds recFlag recur (l1 ++ l2) acc =
      (match depTreeLoop reg ds recFlag recur l1 acc with
      | Except.error e => Except.error e
      | Except.ok acc1 => depTreeLoop reg ds recFlag recur l2 acc1) := by
  intro l1
  induction l1 with
  | nil => intro l2 acc; rfl
  | cons d rest ih =>
    intro l2 acc
    rw [List.cons_append]
    cases hb : (ds.truthy && ds.hasName d) with
    | true =>
      rw [depTreeLoop_cons_base reg ds recFlag recur d (rest ++ l2) acc hb,
        depTreeLoop_cons_base reg ds recFlag recur d rest acc hb, ih]
    | false =>
      cases hg : (getVariable reg d).isSome with
      | true =>
        cases recFlag with
        | true =>
          cases hr : recur d with
          | error e =>
            rw [depTreeLoop_cons_recErr reg ds recur d (rest ++ l2) acc e hb hg hr,
              depTreeLoop_cons_recErr reg ds recur d rest acc e hb hg hr]
          | ok sub =>
            rw [depTreeLoop_cons_recOk reg ds recur d (rest ++ l2) acc sub hb hg hr,
              depTreeLoop_cons_recOk reg ds recur d rest acc sub hb hg hr, ih]
        | false =>
          rw [depTreeLoop_cons_flat reg ds recur d (rest ++ l2) acc hb hg,
            depTreeLoop_cons_flat reg ds recur d rest acc hb hg, ih]
      | false =>
        cases ht : ds.truthy with
        | true =>
          rw [depTreeLoop_cons_missing reg ds recFlag recur d (rest ++ l2) acc hb hg ht,
            depTreeLoop_cons_missing reg ds recFlag recur d rest acc hb hg ht, ih]
        | false =>
          rw [depTreeLoop_cons_unknown reg ds recFlag recur d (rest ++ l2) acc hb hg ht,
            depTreeLoop_cons_unknown reg ds recFlag recur d rest acc hb hg ht, ih]

lemma accessorGetDepsRec_off_special (reg : List DerivedVariable) (ds : Ds)
    (n : String) (h : n ≠ rhName) :
    accessorGetDepsRec reg ds n =
      (match registryGetDeps reg ds true (reg.length + 1) n [] with
      | Except.error e => Except.error e
      | Except.ok full => Except.ok (depsOfResult full)) := by
  have hb : (n == rhName) = false := beq_eq_false_iff_ne.mpr h
  cases hr : registryGetDeps reg ds true (reg.length + 1) n [] with
  | error e =>
    simp only [accessorGetDepsRec]
    rw [hr]
  | ok full =>
    simp only [accessorGetDepsRec]
    rw [hr]
    show (if (n == rhName) = true then Except.ok (promoteSpecial (depsOfResult full))
      else Except.ok (depsOfResult full)) = Except.ok (depsOfResult full)
    rw [hb]
    rfl

/-! Concrete registries and datasets used by the case studies -/

/-- A payload with no declared name, no attrs and the given data value. -/
def pl (n : Nat) : Payload := ⟨none, [], n⟩

/-- A compute function returning a fixed payload. -/
def constFunc (n : Nat) : List (String × Payload) → ComputeOut :=
  fun _ => ComputeOut.val (pl n)

/-- A compute function that raises. -/
def failFunc : List (String × Payload) → ComputeOut := fun _ => ComputeOut.raiseExc

/-- The empty dataset. -/
def dsEmpty : Ds := ⟨[], []⟩

/-- A where A depends on B and B's compute function raises. -/
def regAB1 : List DerivedVariable :=
  [⟨"A", ["B"], constFunc 1, "A", []⟩, ⟨"B", [], failFunc, "B", []⟩]

/-- The two-rule cycle A -> [B], B -> [A]. -/
def regCyc : List DerivedVariable :=
  [⟨"A", ["B"], constFunc 1, "A", []⟩, ⟨"B", ["A"], constFunc 2, "B", []⟩]

/-- A single rule over two base names. -/
def ruleTP : DerivedVariable := ⟨"P", ["temperature", "pressure"], constFunc 7, "P", []⟩

/-- Registry holding only ruleTP. -/
def regTP : List DerivedVariable := [ruleTP]

/-- Dataset providing temperature only. -/
def dsTemp : Ds := ⟨[("temperature", pl 4)], []⟩

/-- A rule with its single dependency present in the dataset. -/
def regW1 : List DerivedVariable := [⟨"P1", ["temperature"], constFunc 7, "P1", []⟩]

/-- A base name present in a dataset but not registered. -/
def dsT : Ds := ⟨[("t", pl 5)], []⟩

/-- Two chained rules C -> [B], B -> [b]. -/
def regChain : List DerivedVariable :=
  [⟨"C", ["B"], constFunc 3, "C", []⟩, ⟨"B", ["b"], constFunc 2, "B", []⟩]

/-- Dataset providing the base name b. -/
def dsB : Ds := ⟨[("b", pl 9)], []⟩

/-- The payload resolving B in regChain produces. -/
def pB : Payload := ⟨some "B", [], 2⟩

/-- The payload resolving C in regChain produces. -/
def pC : Payload := ⟨some "C", [], 3⟩

/-- The cache after resolving C in regChain. -/
def cC : Cache := [("C", pC), ("B", pB)]

/-- C depending on resolvable B and missing base x. -/
def regW10 : List DerivedVariable :=
  [⟨"C", ["B", "x"], constFunc 3, "C", []⟩, ⟨"B", ["b"], constFunc 2, "B", []⟩]

/-- A compute function returning a payload that carries its own attrs. -/
def funcAttr : List (String × Payload) → ComputeOut :=
  fun _ => ComputeOut.val ⟨none, [("units", "C")], 5⟩

/-- A dependency-free rule with declared attrs overlapping the payload's. -/
def ruleM : DerivedVariable := ⟨"P", [], funcAttr, "P", [("units", "K"), ("src", "rule")]⟩

/-- Registry holding only ruleM. -/
def regM : List DerivedVariable := [ruleM]

/-- The merged payload resolving ruleM produces: the payload's units value
wins over the rule's, the rule's extra key survives, the name is forced. -/
def pM : Payload := ⟨some "P", [("units", "C"), ("src", "rule")], 5⟩

/-- Fixture mirroring standard_variables.py: rh -> [mr, smr],
mr -> [specific_humidity], smr -> [air_pressure, svp], svp -> [air_temperature]. -/
def regRH : List DerivedVariable :=
  [⟨rhName, [mrName, smrName], constFunc 1, "rh", []⟩,
   ⟨mrName, ["specific_humidity"], constFunc 2, "mr", []⟩,
   ⟨smrName, ["air_pressure", "saturation_vapor_pressure_tetens"], constFunc 3, "smr", []⟩,
   ⟨"saturation_vapor_pressure_tetens", ["air_temperature"], constFunc 4, "svp", []⟩]

/-- Dataset providing the base names of regRH. -/
def dsRH : Ds :=
  ⟨[("specific_humidity", pl 1), ("air_pressure", pl 2), ("air_temperature", pl 3)], []⟩

/-- The direct dependency map of mrName in regRH/dsRH. -/
def mrTreeDirect : List (String × DepInfo) :=
  [("specific_humidity", DepInfo.baseInDataset)]

/-- The recursive tree of the Tetens rule in regRH/dsRH. -/
def svpTree : DepResult :=
  DepResult.node "saturation_vapor_pressure_tetens" "svp"
    [("air_temperature", DepInfo.baseInDataset)] []

/-- The direct dependency map of smrName in regRH/dsRH. -/
def smrTreeDirect : List (String × DepInfo) :=
  [("air_pressure", DepInfo.baseInDataset),
   ("saturation_vapor_pressure_tetens", DepInfo.derivedRec svpTree)]

/-- A diamond-free registry where one branch cycles and its sibling does not:
A4 -> [B4, C4], B4 -> [A4], C4 -> []. -/
def regSib : List DerivedVariable :=
  [⟨"A4", ["B4", "C4"], constFunc 1, "A4", []⟩,
   ⟨"B4", ["A4"], constFunc 2, "B4", []⟩,
   ⟨"C4", [], constFunc 3, "C4", []⟩]

/-- R depending on a missing base x and on the registered D, itself
depending only on the missing base y. -/
def regC2 : List DerivedVariable :=
  [⟨"R", ["x", "D"], constFunc 1, "R", []⟩, ⟨"D", ["y"], constFunc 2, "D", []⟩]

/-! Case study C1: get_status against the resolver -/

/-- Claim C1 counterexample: regAB1 is an acyclic registry, the status of A
reports computable, yet resolving A raises a MissingDependencyError (the
combined form wrapping B's compute failure) - a graph-shaped error the claim
says a computable status excludes. -/
theorem c1_counterexample :
    AcyclicRules regAB1 ∧
    (get_status regAB1 dsEmpty "A").computable = true ∧
    (resolveTop regAB1 dsEmpty [] "A").1 =
      Except.error (XErr.missingCombined "A" [] [("B", XErr.computeFail "B")]) ∧
    (XErr.missingCombined "A" [] [("B", XErr.computeFail "B")]).isGraphErr = true :=
  ⟨⟨fun n => if n = "A" then 1 else 0, by decide⟩, rfl, rfl, rfl⟩

/-- Claim C1 (amended): for an acyclic registry, get_status(name).computable
does not imply that resolve(name) raises no error at all; it is equivalent
to resolve(name) raising no graph-structure error (unknown variable,
missing dependency, cyclic dependency) only under the further assumption
that every compute function returns a DataArray, in which case a computable
status in fact guarantees that resolution succeeds outright. -/
theorem c1_amended_status_matches_resolver (reg : List DerivedVariable) (ds : Ds)
    (name : String) (hacyc : AcyclicRules reg) (hT : FuncsTotal reg) :
    ((get_status reg ds name).computable = true ↔
      ∀ e, (resolveTop reg ds [] name).1 = Except.error e → e.isGraphErr = false) ∧
    ((get_status reg ds name).computable = true →
      ∃ p c t, resolveTop reg ds [] name = (Except.ok p, c, t)) := by
  have hiff := get_status_computable_iff reg ds name
  have hfree : freeNames reg [] < reg.length + 1 := by
    have h0 := freeNames_nil reg
    have h1 : (registryNames reg).length = reg.length := by
      unfold registryNames
      exact List.length_map reg DerivedVariable.name
    omega
  have hcompl : (get_status reg ds name).computable = true →
      ∃ p c t, resolveTop reg ds [] name = (Except.ok p, c, t) := by
    intro h
    exact resolveGo_good_complete reg ds hT (reg.length + 1) [] [] name hfree
      (hiff.mp h) (by intro x hx; cases hx)
  refine ⟨⟨?_, ?_⟩, hcompl⟩
  · intro h e herr
    rcases hcompl h with ⟨p, c, t, hok⟩
    unfold resolveTop at herr hok
    rw [hok] at herr
    cases herr
  · intro hnog
    refine hiff.mpr ?_
    rcases hres : resolveTop reg ds [] name with ⟨res, c, t⟩
    cases res with
    | ok p =>
      exact (resolveGo_good reg ds (reg.length + 1) [] [] name
        (by intro k q hk; cases hk)).2 p c t hres
    | error e =>
      exfalso
      have hg := hnog e (by rw [hres])
      cases e with
      | unknownVar a => cases hg
      | missingFlat a l => cases hg
      | missingCombined a l u => cases hg
      | cyclic a pth => cases hg
      | outOfFuel =>
        exact resolveGo_no_outOfFuel reg ds (reg.length + 1) [] [] name hfree
          (by rw [show resolveGo reg ds (reg.length + 1) [] [] name =
            resolveTop reg ds [] name from rfl, hres])
      | computeFail k =>
        exact (resolveGo_no_computeFail reg ds hT (reg.length + 1) [] [] name k).1
          (by rw [show resolveGo reg ds (reg.length + 1) [] [] name =
            resolveTop reg ds [] name from rfl, hres])
      | nonDataArray k =>
        exact (resolveGo_no_computeFail reg ds hT (reg.length + 1) [] [] name k).2
          (by rw [show resolveGo reg ds (reg.length + 1) [] [] name =
            resolveTop reg ds [] name from rfl, hres])

/-- Claim C1 witness: a concrete acyclic registry with a total compute
function on which the amended equivalence yields a successful resolution. -/
theorem c1_witness :
    (get_status regW1 dsTemp "P1").computable = true ∧
    ∃ p c t, resolveTop regW1 dsTemp [] "P1" = (Except.ok p, c, t) :=
  ⟨rfl,
    (c1_amended_status_matches_resolver regW1 dsTemp "P1"
      ⟨fun n => if n = "P1" then 1 else 0, by decide⟩
      (by
        intro v hv pool
        rcases List.mem_singleton.mp hv with h
        subst h
        exact ⟨pl 7, rfl⟩)).2 rfl⟩

/-! Case study C2: the two missing-dependency message forms -/

/-- Claim C2 counterexample: R depends on the missing base x and on the
registered D, which is itself unavailable (its base y is missing), yet the
error for R is the flat form listing only x - not the combined form the
claim requires whenever an unavailable derived dependency is involved. -/
theorem c2_counterexample :
    (resolveTop regC2 dsEmpty [] "D").1 = Except.error (XErr.missingFlat "D" ["y"]) ∧
    (resolveTop regC2 dsEmpty [] "R").1 = Except.error (XErr.missingFlat "R" ["x"]) :=
  ⟨rfl, rfl⟩

/-- Claim C2 (amended): the flat MissingDependencyError fires whenever at
least one dependency is a direct missing base name (regardless of failed
derived dependencies, whose reasons are then suppressed), and it lists the
registration-order missing bases; the combined form fires only when no
direct base is missing and some derived dependency failed. -/
theorem c2_missing_dependency_message (reg : List DerivedVariable) (ds : Ds)
    (fuel : Nat) (stack : List String) (cache : Cache) (name : String)
    (vdef : DerivedVariable) (pool : List (String × Payload)) (mb : List String)
    (ud : List (String × XErr)) (c : Cache) (t : List String)
    (h1 : alistLookup cache name = none) (h2 : stack.contains name = false)
    (h3 : getVariable reg name = some vdef)
    (h4 : frameLoop reg ds fuel stack cache name vdef = LoopOut.finished pool mb ud c t) :
    mb = vdef.dependencies.filter (fun d => !ds.hasName d && !(getVariable reg d).isSome) ∧
    (mb ≠ [] → (resolveGo reg ds (fuel + 1) stack cache name).1 =
      Except.error (XErr.missingFlat name mb)) ∧
    (mb = [] → ud ≠ [] → (resolveGo reg ds (fuel + 1) stack cache name).1 =
      Except.error (XErr.missingCombined name [] ud)) := by
  have hmb : mb = vdef.dependencies.filter
      (fun d => !ds.hasName d && !(getVariable reg d).isSome) := by
    have hx := depLoop_finished_mb reg ds
      (fun c2 d => resolveGo reg ds fuel (name :: stack) c2 d)
      vdef.dependencies [] [] [] cache [] pool mb ud c t
      (by unfold frameLoop at h4; exact h4)
    simpa using hx
  refine ⟨hmb, ?_, ?_⟩
  · intro hne
    have hmbe : mb.isEmpty = false := by
      cases mb with
      | nil => exact absurd rfl hne
      | cons a l => rfl
    have h5 : (mb.isEmpty && ud.isEmpty) = false := by rw [hmbe]; rfl
    have h6 : (missingBaseFilter reg ds vdef).isEmpty = false := by
      unfold missingBaseFilter
      rw [← hmb]
      exact hmbe
    rw [resolveGo_missing_flat_eq reg ds fuel stack cache name vdef pool mb ud c t
      h1 h2 h3 h4 h5 h6]
    show Except.error (XErr.missingFlat name (missingBaseFilter reg ds vdef)) =
      Except.error (XErr.missingFlat name mb)
    unfold missingBaseFilter
    rw [← hmb]
  · intro hmbnil hudne
    have h5 : (mb.isEmpty && ud.isEmpty) = false := by
      rw [hmbnil]
      cases ud with
      | nil => exact absurd rfl hudne
      | cons a l => rfl
    have h6 : (missingBaseFilter reg ds vdef).isEmpty = true := by
      unfold missingBaseFilter
      rw [← hmb, hmbnil]
      rfl
    rw [resolveGo_missing_combined_eq reg ds fuel stack cache name vdef pool mb ud c t
      h1 h2 h3 h4 h5 h6]
    show Except.error (XErr.missingCombined name mb ud) =
      Except.error (XErr.missingCombined name [] ud)
    rw [hmbnil]

/-- Claim C2 witness: the rule P over [temperature, pressure] with only
temperature present reports exactly the flat list ["pressure"]. -/
theorem c2_witness :
    (resolveTop regTP dsTemp [] "P").1 =
      Except.error (XErr.missingFlat "P" ["pressure"]) := by
  have h := (c2_missing_dependency_message regTP dsTemp 1 [] [] "P" ruleTP
    [("temperature", pl 4)] ["pressure"] [] [] [] rfl rfl rfl rfl).2.1 (by decide)
  exact h

/-! Case study C3: cyclic errors propagate unchanged -/

/-- Claim C3: a name found on the resolving stack raises the cyclic error
carrying the stack as its path; a dependency loop that receives a cyclic
error from a recursive call aborts with that very error (rather than
accumulating it as a missing dependency); an enclosing frame re-raises an
aborted loop's cyclic error unchanged; and the cyclic kind is distinct from
both missing-dependency kinds. -/
theorem c3_cyclic_propagates_unchanged (reg : List DerivedVariable) (ds : Ds) :
    (∀ fuel stack cache name, alistLookup cache name = none →
      stack.contains name = true →
      resolveGo reg ds (fuel + 1) stack cache name =
        (Except.error (XErr.cyclic name stack), cache, [])) ∧
    (∀ (resolver : Cache → String → ResolveOut) d rest pool mb ud cache trace
        m pth c1 t1,
      ds.lookupVar d = none → (getVariable reg d).isSome = true →
      resolver cache d = (Except.error (XErr.cyclic m pth), c1, t1) →
      depLoop reg ds resolver (d :: rest) pool mb ud cache trace =
        LoopOut.aborted (XErr.cyclic m pth) c1 (trace ++ t1)) ∧
    (∀ fuel stack cache name vdef m pth c t,
      alistLookup cache name = none → stack.contains name = false →
      getVariable reg name = some vdef →
      frameLoop reg ds fuel stack cache name vdef =
        LoopOut.aborted (XErr.cyclic m pth) c t →
      resolveGo reg ds (fuel + 1) stack cache name =
        (Except.error (XErr.cyclic m pth), c, t)) ∧
    (∀ m pth a l, XErr.cyclic m pth ≠ XErr.missingFlat a l) ∧
    (∀ m pth a l u, XErr.cyclic m pth ≠ XErr.missingCombined a l u) := by
  refine ⟨?_, ?_, ?_, ?_, ?_⟩
  · intro fuel stack cache name h1 h2
    exact resolveGo_cyclic_eq reg ds fuel stack cache name h1 h2
  · intro resolver d rest pool mb ud cache trace m pth c1 t1 h1 h2 h3
    exact depLoop_cons_recAbort reg ds resolver d rest pool mb ud cache trace
      (XErr.cyclic m pth) c1 t1 h1 h2 h3 rfl
  · intro fuel stack cache name vdef m pth c t h1 h2 h3 h4
    exact resolveGo_aborted_eq reg ds fuel stack cache name vdef
      (XErr.cyclic m pth) c t h1 h2 h3 h4
  · intro m pth a l h
    cases h
  · intro m pth a l u h
    cases h

/-- Claim C3 witness: the A-B cycle detects A on the stack and the top-level
resolve of A re-raises exactly that cyclic error through both frames. -/
theorem c3_witness :
    resolveGo regCyc dsEmpty 1 ["B", "A"] [] "A" =
      (Except.error (XErr.cyclic "A" ["B", "A"]), [], []) ∧
    resolveTop regCyc dsEmpty [] "A" =
      (Except.error (XErr.cyclic "A" ["B", "A"]), [], []) := by
  have h := c3_cyclic_propagates_unchanged regCyc dsEmpty
  constructor
  · exact h.1 0 ["B", "A"] [] "A" rfl rfl
  · exact h.2.2.1 2 [] [] "A" ⟨"A", ["B"], constFunc 1, "A", []⟩ "A" ["B", "A"]
      [] [] rfl rfl rfl (by rfl)

/-! Case study C4: the dependency tree and the hard-coded promotion -/

/-- Claim C4 counterexample: querying the tree of relative humidity grafts
the saturation-mixing-ratio sibling into the mixing-ratio node's nested
dict, while the registry's own tree for the same inputs reports the
mixing-ratio node without it - the same derived name rendered differently
depending on which parent reached it. -/
theorem c4_counterexample :
    accessorGetDepsRec regRH dsRH rhName =
      Except.ok
        [(mrName, DepInfo.derivedRec
            (DepResult.node mrName "mr" mrTreeDirect
              [(smrName, DepInfo.derivedRec (DepResult.node smrName "smr" smrTreeDirect []))])),
         (smrName, DepInfo.derivedRec (DepResult.node smrName "smr" smrTreeDirect []))] ∧
    registryGetDeps regRH dsRH true (regRH.length + 1) mrName [] =
      Except.ok (DepResult.node mrName "mr" mrTreeDirect []) ∧
    DepResult.node mrName "mr" mrTreeDirect
        [(smrName, DepInfo.derivedRec (DepResult.node smrName "smr" smrTreeDirect []))] ≠
      DepResult.node mrName "mr" mrTreeDirect [] := by
  refine ⟨rfl, rfl, ?_⟩
  intro h
  injection h with h1 h2 h3 h4
  cases h4

/-- Claim C4 (amended): away from the special-cased
relative_humidity_from_mixing_ratios name the accessor's recursive tree is
exactly the dependencies map of the registry's tree, and the registry's
dependency loop treats siblings independently: the tree of a concatenated
dependency list is the loop run on the first part followed by the loop run
on the second, so a cycle marker produced on one branch never alters a
sibling branch. -/
theorem c4_dependency_tree_uniform (reg : List DerivedVariable) (ds : Ds) :
    (∀ n, n ≠ rhName →
      accessorGetDepsRec reg ds n =
        (match registryGetDeps reg ds true (reg.length + 1) n [] with
        | Except.error e => Except.error e
        | Except.ok full => Except.ok (depsOfResult full))) ∧
    (∀ (recFlag : Bool) (recur : String → Except String DepResult)
        (l1 l2 : List String) (acc : List (String × DepInfo)),
      depTreeLoop reg ds recFlag recur (l1 ++ l2) acc =
        (match depTreeLoop reg ds recFlag recur l1 acc with
        | Except.error e => Except.error e
        | Except.ok acc1 => depTreeLoop reg ds recFlag recur l2 acc1)) := by
  constructor
  · intro n hn
    exact accessorGetDepsRec_off_special reg ds n hn
  · intro recFlag recur l1 l2 acc
    exact depTreeLoop_append reg ds recFlag recur l1 l2 acc

/-- Claim C4 witness: in the registry A4 -> [B4, C4], B4 -> [A4], C4 -> [],
the accessor tree of A4 (not the special-cased name) shows the cycle marker
on the B4 branch while the sibling C4 branch is reported normally. -/
theorem c4_witness :
    accessorGetDepsRec regSib dsEmpty "A4" =
      Except.ok
        [("B4", DepInfo.derivedRec
            (DepResult.node "B4" "B4"
              [("A4", DepInfo.derivedRec (DepResult.cycleDetected []))] [])),
         ("C4", DepInfo.derivedRec (DepResult.node "C4" "C4" [] []))] := by
  rw [(c4_dependency_tree_uniform regSib dsEmpty).1 "A4" (by decide)]
  rfl

/-! Case study C5: cycle symmetry and the reason literal -/

/-- Claim C5 counterexample: in the A-B cycle the status reason string is
"cycle detected", not the "cycle" literal the claim states. -/
theorem c5_counterexample :
    (get_status regCyc dsEmpty "A").reason ≠ some "cycle" ∧
    (get_status regCyc dsEmpty "B").reason ≠ some "cycle" :=
  ⟨by decide, by decide⟩

/-- Claim C5 (amended): registering the two-rule cycle A -> [B], B -> [A]
makes both statuses non-computable with reason "cycle detected", and
resolving A raises the cyclic error whose path contains both names. -/
theorem c5_cycle_symmetry :
    (get_status regCyc dsEmpty "A").reason = some "cycle detected" ∧
    (get_status regCyc dsEmpty "B").reason = some "cycle detected" ∧
    (get_status regCyc dsEmpty "A").computable = false ∧
    (get_status regCyc dsEmpty "B").computable = false ∧
    (resolveTop regCyc dsEmpty [] "A").1 =
      Except.error (XErr.cyclic "A" ["B", "A"]) ∧
    "A" ∈ ["B", "A"] ∧ "B" ∈ ["B", "A"] :=
  ⟨rfl, rfl, rfl, rfl, rfl, by decide, by decide⟩

/-! Case study C6: idempotence and cache finality -/

/-- Claim C6: once a resolve call succeeds, any later call on the resulting
cache returns the identical cached payload with no recomputation (its
compute trace is empty) at any fuel and against any stack; entries of the
incoming cache survive unchanged; and after clear_cache a succeeding
resolve recomputes the name (the name appears in its compute trace). -/
theorem c6_resolve_idempotent_cache_final (reg : List DerivedVariable) (ds : Ds)
    (fuel : Nat) (stack : List String) (cache : Cache) (n : String)
    (p : Payload) (c : Cache) (t : List String)
    (h : resolveGo reg ds (fuel + 1) stack cache n = (Except.ok p, c, t)) :
    (∀ fuel2 stack2, resolveGo reg ds (fuel2 + 1) stack2 c n = (Except.ok p, c, [])) ∧
    (∀ k q, alistLookup cache k = some q → alistLookup c k = some q) ∧
    (∀ fuel3 stack3 p3 c3 t3,
      resolveGo reg ds (fuel3 + 1) stack3 (clear_cache c) n = (Except.ok p3, c3, t3) →
      n ∈ t3) := by
  have hself : alistLookup c n = some p :=
    resolveGo_ok_self reg ds fuel stack cache n p c t h
  refine ⟨?_, ?_, ?_⟩
  · intro fuel2 stack2
    exact resolveGo_hit reg ds fuel2 stack2 c n p hself
  · intro k q hk
    have hmono := resolveGo_lookup_mono reg ds (fuel + 1) stack cache n k q hk
    rw [h] at hmono
    exact hmono
  · intro fuel3 stack3 p3 c3 t3 h3
    exact resolveGo_ok_trace reg ds fuel3 stack3 (clear_cache c) n p3 c3 t3 rfl h3

/-- Claim C6 witness: resolving C in the chain C -> B -> b computes B then C;
on the resulting cache the repeat call returns the same payload with an
empty trace, and after a cache clear C is recomputed. -/
theorem c6_witness :
    resolveGo regChain dsB 3 [] cC "C" = (Except.ok pC, cC, []) ∧
    "C" ∈ ["B", "C"] := by
  have h := c6_resolve_idempotent_cache_final regChain dsB 2 [] [] "C" pC cC
    ["B", "C"] (by rfl)
  exact ⟨h.1 2 [], h.2.2 2 [] pC cC ["B", "C"] (by rfl)⟩

/-! Case study C7: is_computable and the computable closure -/

/-- Claim C7 counterexample: a base name present in the dataset but not
registered is reported not computable - _is_computable never consults the
dataset for the queried name itself, only for its dependencies. -/
theorem c7_counterexample :
    Ds.hasName dsT "t" = true ∧ isComputableTop [] dsT "t" = false :=
  ⟨rfl, rfl⟩

/-- Claim C7 (amended): _is_computable never throws and holds exactly when
the name is a registered rule whose dependency graph is satisfiable from
the dataset through registered rules (a present base name that is not
registered is not computable, and a cycle is merely not computable); and
list_all_computable is exactly the registered names passing _is_computable,
in code-point lexicographic order. -/
theorem c7_is_computable_characterization (reg : List DerivedVariable) (ds : Ds) :
    (∀ n, isComputableTop reg ds n = true ↔ isGood reg ds n) ∧
    (∀ n, n ∈ list_all_computable reg ds ↔
      (n ∈ registryNames reg ∧ isComputableTop reg ds n = true)) ∧
    List.Pairwise (fun a b => strLe a b = true) (list_all_computable reg ds) := by
  refine ⟨?_, ?_, ?_⟩
  · intro n
    exact isComputableTop_iff_good reg ds n
  · intro n
    unfold list_all_computable
    rw [mem_sortNames]
    constructor
    · intro h
      have hx := List.mem_filter.mp h
      exact ⟨hx.1, by simpa using hx.2⟩
    · intro h
      exact List.mem_filter.mpr ⟨h.1, by simpa using h.2⟩
  · unfold list_all_computable
    exact sorted_sortNames _

/-! Case study C8: the Rule constructor's validation -/

/-- Claim C8 counterexample: the constructor accepts a dependencies list
containing the empty string - only isinstance(dep, str) is checked, never
the emptiness the claim requires it to reject. -/
theorem c8_counterexample :
    dvInitOk (PyObj.pstr "x") (PyObj.plist [PyObj.pstr ""]) PyObj.pfunc = true ∧
    (PyObj.pstr "").truthy = false :=
  ⟨rfl, rfl⟩

/-- Claim C8 (amended): construction succeeds exactly when the name is a
non-empty string, the dependencies are a list whose elements are all
strings (empty strings included), and the compute function is callable. -/
theorem c8_constructor_validation (name deps func : PyObj) :
    dvInitOk name deps func = true ↔
      ((∃ s, name = PyObj.pstr s ∧ s ≠ "") ∧
        (∃ l, deps = PyObj.plist l ∧ ∀ x ∈ l, ∃ t, x = PyObj.pstr t) ∧
        func = PyObj.pfunc) := by
  cases name <;> cases deps <;> cases func <;>
    simp [dvInitOk, PyObj.truthy, PyObj.isCallable, List.all_eq_true,
      pyObj_isStr_iff]

/-! Case study C9: metadata merge and name forcing -/

/-- Claim C9: every successful uncached resolve produced its payload by
calling the rule's compute function, merging the rule's declared attrs as
the base with the payload's attrs winning per key, and forcing the
payload's name to the resolved name. -/
theorem c9_metadata_merge (reg : List DerivedVariable) (ds : Ds)
    (fuel : Nat) (stack : List String) (cache : Cache) (name : String)
    (p : Payload) (c : Cache) (t : List String)
    (hc : alistLookup cache name = none)
    (h : resolveGo reg ds (fuel + 1) stack cache name = (Except.ok p, c, t)) :
    ∃ vdef pool q, getVariable reg name = some vdef ∧
      vdef.func pool = ComputeOut.val q ∧
      p = finalPayload name vdef q ∧
      p.name = some name ∧
      p.attrs = mergeAttrs vdef.attrs q.attrs ∧
      ((q.attrs.map Prod.fst).Nodup →
        ∀ k, alistLookup p.attrs k =
          (alistLookup q.attrs k).or (alistLookup vdef.attrs k)) := by
  cases hs : stack.contains name with
  | true =>
    rw [resolveGo_cyclic_eq reg ds fuel stack cache name hc hs] at h
    cases h
  | false =>
    cases hv : getVariable reg name with
    | none =>
      rw [resolveGo_unknown_eq reg ds fuel stack cache name hc hs hv] at h
      cases h
    | some vdef =>
      cases hout : frameLoop reg ds fuel stack cache name vdef with
      | aborted e2 c2 t2 =>
        rw [resolveGo_aborted_eq reg ds fuel stack cache name vdef e2 c2 t2
          hc hs hv hout] at h
        cases h
      | finished pool mb ud c2 t2 =>
        cases hempty : (mb.isEmpty && ud.isEmpty) with
        | true =>
          cases hf : vdef.func pool with
          | raiseExc =>
            rw [resolveGo_computeFail_eq reg ds fuel stack cache name vdef pool mb ud
              c2 t2 hc hs hv hout hempty hf] at h
            cases h
          | nonDataArray =>
            rw [resolveGo_nonDataArray_eq reg ds fuel stack cache name vdef pool mb ud
              c2 t2 hc hs hv hout hempty hf] at h
            cases h
          | val q =>
            rw [resolveGo_val_eq reg ds fuel stack cache name vdef pool mb ud
              c2 t2 q hc hs hv hout hempty hf] at h
            injection h with hfst hsnd
            injection hfst with hp
            refine ⟨vdef, pool, q, rfl, hf, hp.symm, ?_, ?_, ?_⟩
            · rw [← hp]
              rfl
            · rw [← hp]
              rfl
            · intro hnd k
              rw [← hp]
              show alistLookup (mergeAttrs vdef.attrs q.attrs) k =
                (alistLookup q.attrs k).or (alistLookup vdef.attrs k)
              exact alistLookup_mergeAttrs vdef.attrs q.attrs k hnd
        | false =>
          cases hcvm : (missingBaseFilter reg ds vdef).isEmpty with
          | true =>
            rw [resolveGo_missing_combined_eq reg ds fuel stack cache name vdef pool
              mb ud c2 t2 hc hs hv hout hempty hcvm] at h
            cases h
          | false =>
            rw [resolveGo_missing_flat_eq reg ds fuel stack cache name vdef pool
              mb ud c2 t2 hc hs hv hout hempty hcvm] at h
            cases h

/-- Claim C9 witness: resolving the attrs fixture merges the rule's
declared attrs under the payload's (units stays "C", src survives) and
forces the name to P. -/
theorem c9_witness :
    ∃ vdef pool q, getVariable regM "P" = some vdef ∧
      vdef.func pool = ComputeOut.val q ∧
      pM = finalPayload "P" vdef q ∧
      pM.name = some "P" ∧
      pM.attrs = mergeAttrs vdef.attrs q.attrs ∧
      ((q.attrs.map Prod.fst).Nodup →
        ∀ k, alistLookup pM.attrs k =
          (alistLookup q.attrs k).or (alistLookup vdef.attrs k)) :=
  c9_metadata_merge regM dsEmpty 1 [] [] "P" pM [("P", pM)] ["P"] rfl (by rfl)

/-! Case study C10: only successes are cached -/

/-- Claim C10: a failing resolve leaves the cache entry of the name being
resolved exactly as it found it, while every entry of the incoming cache
survives - dependencies resolved successfully during the failed attempt
remain cached. -/
theorem c10_cache_only_successes (reg : List DerivedVariable) (ds : Ds)
    (fuel : Nat) (stack : List String) (cache : Cache) (n : String)
    (e : XErr) (c : Cache) (t : List String)
    (h : resolveGo reg ds fuel stack cache n = (Except.error e, c, t)) :
    alistLookup c n = alistLookup cache n ∧
    (∀ k q, alistLookup cache k = some q → alistLookup c k = some q) := by
  constructor
  · exact resolveGo_error_self reg ds fuel stack cache n e c t h
  · intro k q hk
    have hmono := resolveGo_lookup_mono reg ds fuel stack cache n k q hk
    rw [h] at hmono
    exact hmono

/-- Claim C10 witness: resolving C in regW10 fails on the missing base x,
leaves C uncached, yet keeps the successfully resolved dependency B in the
cache. -/
theorem c10_witness :
    alistLookup [("B", pB)] "C" = none ∧
    alistLookup [("B", pB)] "B" = some pB := by
  have h := c10_cache_only_successes regW10 dsB 3 [] [] "C"
    (XErr.missingFlat "C" ["x"]) [("B", pB)] ["B"] (by rfl)
  refine ⟨?_, by rfl⟩
  rw [h.1]
  rfl

end XDerived
